import Mathlib

/-!
Verification of the inventory ledger engine of the sales/inventory dashboard
(`src/App.tsx`): stock inference (`inferInitialStocks`), chronological replay
with non-negativity validation (`processAndValidateData`), and the CSV codec
(`parseCSV`).  JavaScript numbers are modelled as `Int` (the spec's data model
declares quantities and stock levels as integers), JavaScript objects used as
string-keyed maps are modelled as association lists with first-match lookup
and in-place overwrite, and `Array.prototype.sort` (stable since ES2019) is
modelled by `List.insertionSort`, which is stable.
-/

/-- The transaction record (`SalesData` in `src/types.ts`). -/
structure SalesData where
  id : String
  tanggal : String
  nama_produk : String
  jumlah_terjual : Int
  harga_beli : Int
  harga_jual : Int
  total_penjualan : Int
  total_biaya : Int
  laba : Int
  stok_sisa : Int
deriving DecidableEq

/-- A JavaScript object used as a string→number map (`Record<string, number>`),
modelled as an association list in key-insertion order. -/
abbrev StockMap := List (String × Int)

/-- Property lookup on a `Record<string, number>`: the first binding wins
(JavaScript objects cannot hold duplicate keys, so on well-formed maps this is
exact). -/
def lookupStock : StockMap → String → Option Int
  | [], _ => none
  | (k, v) :: r, p => if k == p then some v else lookupStock r p

/-- Property assignment `m[p] = v` on a JavaScript object: overwrites the
existing binding in place, or appends a new one. -/
def setStock : StockMap → String → Int → StockMap
  | [], p, v => [(p, v)]
  | (k, w) :: r, p, v => if k == p then (k, v) :: r else (k, w) :: setStock r p v

/-- `currentStocks[productName]` with the `undefined → 0` defaulting performed
at lines 76–79 of `src/App.tsx`. -/
def lookup0 (m : StockMap) (p : String) : Int := (lookupStock m p).getD 0

/-- Modelled from the source's `new Date(s).getTime()` sort key: a monotone
numeric encoding of an ISO `YYYY-MM-DD` date string (digits concatenated).
Every claim below is independent of the particular encoding; only that equal
strings get equal keys and the ISO order is respected matters. -/
def dateValue (s : String) : Nat :=
  (s.data.filter Char.isDigit).foldl (fun a c => a * 10 + (c.toNat - 48)) 0

/-- The comparator `(a, b) => new Date(a.tanggal).getTime() - new Date(b.tanggal).getTime()`
viewed as a `≤` relation. -/
def dateLE (a b : SalesData) : Prop := dateValue a.tanggal ≤ dateValue b.tanggal

instance : DecidableRel dateLE := fun a b =>
  inferInstanceAs (Decidable (dateValue a.tanggal ≤ dateValue b.tanggal))

instance : IsTotal SalesData dateLE := ⟨fun a b => Nat.le_total _ _⟩

instance : IsTrans SalesData dateLE := ⟨fun _ _ _ => Nat.le_trans⟩

/-- `[...data].sort((a, b) => new Date(a.tanggal).getTime() - new Date(b.tanggal).getTime())`:
a stable ascending sort by date. -/
def sortByDate (l : List SalesData) : List SalesData := List.insertionSort dateLE l

/-- The data carried by the validation error string built at line 97 of
`src/App.tsx`: product, date, stock level immediately before the failing
transaction, and the quantity requested. -/
structure ReplayError where
  product : String
  date : String
  stockBefore : Int
  quantity : Int
deriving DecidableEq

/-- The return shape `{ processedData: SalesData[], error: string | null }`. -/
structure ReplayResult where
  processedData : List SalesData
  error : Option ReplayError
deriving DecidableEq

/-- The validation loop of `processAndValidateData` (lines 72–110): walks the
sorted transactions, threading the per-product stock table; an adjustment
(`jumlah_terjual === 0`) sets the stock to the transaction's own `stok_sisa`,
a sale subtracts and fails if the result would be negative. -/
def replayGo : StockMap → List SalesData → Except ReplayError (List SalesData)
  | _, [] => .ok []
  | stocks, t :: ts =>
    let stockBefore := lookup0 stocks t.nama_produk
    if t.jumlah_terjual = 0 then
      match replayGo (setStock stocks t.nama_produk t.stok_sisa) ts with
      | .ok rest => .ok ({ t with stok_sisa := t.stok_sisa } :: rest)
      | .error e => .error e
    else
      if stockBefore - t.jumlah_terjual < 0 then
        .error { product := t.nama_produk, date := t.tanggal,
                 stockBefore := stockBefore, quantity := t.jumlah_terjual }
      else
        match replayGo (setStock stocks t.nama_produk (stockBefore - t.jumlah_terjual)) ts with
        | .ok rest => .ok ({ t with stok_sisa := stockBefore - t.jumlah_terjual } :: rest)
        | .error e => .error e

/-- `processAndValidateData` (lines 63–113 of `src/App.tsx`): sort all
transactions chronologically, replay them, and either return the rewritten
sequence or return an empty sequence together with the validation error. -/
def processAndValidateData (data : List SalesData) (initialStocks : StockMap) : ReplayResult :=
  match replayGo initialStocks (sortByDate data) with
  | .ok out => ⟨out, none⟩
  | .error e => ⟨[], some e⟩

/-- Appends a product name if not already present: JavaScript object key
insertion order for the `productTransactions` grouping. -/
def insertNewName (s : String) (l : List String) : List String :=
  if l.contains s then l else l ++ [s]

/-- The key iteration order of the `productTransactions` object built at
lines 23–29: product names in order of first occurrence. -/
def productNames (l : List SalesData) : List String :=
  l.foldl (fun acc t => insertNewName t.nama_produk acc) []

/-- `productTransactions[p]`: the product's transactions in input order. -/
def groupOf (l : List SalesData) (p : String) : List SalesData :=
  l.filter (fun t => t.nama_produk == p)

/-- The walk at lines 44–53: from stock level `s` and running minimum `m`,
subtract each transaction's `jumlah_terjual` and track the minimum level. -/
def runMin : Int → Int → List SalesData → Int
  | _, m, [] => m
  | s, m, t :: ts =>
    runMin (s - t.jumlah_terjual)
      (if s - t.jumlah_terjual < m then s - t.jumlah_terjual else m) ts

/-- The inferred opening stock for one product (lines 40–56): the absolute
value of the most negative running stock level over its date-sorted
transactions. -/
def inferredFor (l : List SalesData) : Int := |runMin 0 0 (sortByDate l)|

/-- The per-product loop of `inferInitialStocks` (lines 34–57), iterating the
grouped products in key order and skipping products already present in the
existing opening-stock map. -/
def inferLoop (tx : List SalesData) (existing : StockMap) : List String → StockMap
  | [] => []
  | p :: ps =>
    if (lookupStock existing p).isSome then inferLoop tx existing ps
    else (p, inferredFor (groupOf tx p)) :: inferLoop tx existing ps

/-- `inferInitialStocks` (lines 19–60 of `src/App.tsx`). -/
def inferInitialStocks (transactions : List SalesData) (existingInitialStocks : StockMap) :
    StockMap :=
  inferLoop transactions existingInitialStocks (productNames transactions)

/-- One step of the stock fold: an adjustment resets the stock to the record's
own `stok_sisa`, a sale subtracts its quantity. -/
def stepStock (acc : Int) (t : SalesData) : Int :=
  if t.jumlah_terjual = 0 then t.stok_sisa else acc - t.jumlah_terjual

/-- The stock level after folding a transaction list from an opening level. -/
def foldStock (init : Int) (l : List SalesData) : Int := l.foldl stepStock init

/-- The sequence of stock levels emitted after each transaction of a
single-product list. -/
def stockTrace (init : Int) : List SalesData → List Int
  | [] => []
  | t :: ts => stepStock init t :: stockTrace (stepStock init t) ts

/-- A record with its engine-owned `stok_sisa` field erased; two records agree
on every other field iff their erasures are equal. -/
def eraseStok (t : SalesData) : SalesData := { t with stok_sisa := 0 }

/-- Sum of `jumlah_terjual` over a list. -/
def sumQty (l : List SalesData) : Int := (l.map (·.jumlah_terjual)).sum

/-- A cell value stored in a parsed CSV row object: a parsed number for the
numeric columns, a raw string otherwise, or `undefined` when the row is
shorter than the header. -/
inductive CellVal where
  | num (v : Int)
  | str (s : String)
  | undef
deriving DecidableEq

/-- The dynamic fields of one parsed row object, in key-insertion order. -/
abbrev Row := List (String × CellVal)

/-- `entry[k] = v` on a JavaScript object: overwrite in place or append. -/
def setField : Row → String → CellVal → Row
  | [], k, v => [(k, v)]
  | (k', w) :: r, k, v => if k' == k then (k', v) :: r else (k', w) :: setField r k v

/-- First-binding lookup on a parsed row object. -/
def getField : Row → String → Option CellVal
  | [], _ => none
  | (k', v) :: r, k => if k' == k then some v else getField r k

/-- One parsed CSV row: the generated `id` plus the header-keyed fields. -/
structure CsvEntry where
  id : String
  fields : Row
deriving DecidableEq

/-- The data carried by the three parse-error messages of `parseCSV`:
an empty file, missing header columns, or a non-numeric cell identified by
its (1-based, header-inclusive) row number and column name. -/
inductive CsvError where
  | empty
  | missingHeaders (cols : List String)
  | badCell (row : Nat) (col : String)
deriving DecidableEq

/-- The return shape `{ data: SalesData[], error: string | null }`. -/
structure ParseResult where
  data : List CsvEntry
  error : Option CsvError
deriving DecidableEq

/-- Whitespace-stripping on a char list, from both ends (JavaScript
`String.prototype.trim`). -/
def trimChars (cs : List Char) : List Char :=
  ((cs.dropWhile Char.isWhitespace).reverse.dropWhile Char.isWhitespace).reverse

/-- JavaScript `s.trim()`. -/
def jsTrim (s : String) : String := ⟨trimChars s.data⟩

/-- Splitting a char list at every occurrence of a separator character
(JavaScript `String.prototype.split` with a one-character separator; empty
segments are kept, as in JavaScript). -/
def splitChar (sep : Char) : List Char → List (List Char)
  | [] => [[]]
  | c :: cs =>
    match splitChar sep cs with
    | [] => if c == sep then [[], []] else [[c]]
    | g :: gs => if c == sep then [] :: g :: gs else (c :: g) :: gs

/-- JavaScript `s.split(sep)` for a one-character separator. -/
def jsSplit (sep : Char) (s : String) : List String :=
  (splitChar sep s.data).map (fun cs => ⟨cs⟩)

/-- `text.trim().split('\n').filter(line => line.trim() !== '')`. -/
def splitLines (text : String) : List String :=
  (jsSplit '\n' (jsTrim text)).filter (fun l => jsTrim l ≠ "")

/-- `line.split(',').map(v => v.trim())`. -/
def splitCells (line : String) : List String :=
  (jsSplit ',' line).map jsTrim

/-- The required header columns, in the order they are checked. -/
def requiredHeaders : List String :=
  ["tanggal", "nama_produk", "jumlah_terjual", "harga_beli", "harga_jual",
   "total_penjualan", "total_biaya", "laba", "stok_sisa"]

/-- The columns parsed with `parseFloat` at line 139. -/
def numericCols : List String :=
  ["jumlah_terjual", "harga_beli", "harga_jual", "total_penjualan",
   "total_biaya", "laba", "stok_sisa"]

/-- Digits-to-number accumulator. -/
def digitsToInt (ds : List Char) : Int :=
  ds.foldl (fun a c => a * 10 + (Int.ofNat (c.toNat - 48))) 0

/-- Modelled from the source's `parseFloat(value)` on an already-trimmed cell:
`none` exactly when `parseFloat` yields `NaN`, i.e. when the cell does not
start with an optional sign followed by a digit or by a decimal point and a
digit.  JavaScript's prefix semantics are kept (trailing garbage is ignored);
the numeric value is modelled by the integral part, consistent with the
integer data model used throughout. -/
def parseNumCore (cs : List Char) : Option Int :=
  match cs with
  | '.' :: c :: _ => if c.isDigit then some 0 else none
  | _ =>
    match cs.span (·.isDigit) with
    | ([], _) => none
    | (ds, _) => some (digitsToInt ds)

/-- `parseFloat` with optional leading sign (see `parseNumCore`). -/
def parseNumJS (s : String) : Option Int :=
  match s.data with
  | '-' :: cs => (parseNumCore cs).map (fun n => -n)
  | '+' :: cs => parseNumCore cs
  | cs => parseNumCore cs

/-- The generated row id `id_csv_${Date.now()}_${Math.random()}_${index}`,
with the timestamp and random component abstracted away (they play no role in
any property; only per-call distinctness by `index` matters). -/
def csvId (idx : Nat) : String := "id_csv_" ++ toString idx

/-- The `header.forEach((h, i) => ...)` loop of `parseCSV` (lines 136–148):
builds the row object positionally against the header, parsing numeric
columns and throwing the first bad-cell error. -/
def buildRow (values : List String) (rowIdx : Nat) :
    List String → Nat → Row → Except CsvError Row
  | [], _, entry => .ok entry
  | h :: hs, i, entry =>
    if numericCols.contains h then
      match (values.get? i).bind parseNumJS with
      | some n => buildRow values rowIdx hs (i + 1) (setField entry h (.num n))
      | none => .error (.badCell (rowIdx + 2) h)
    else
      buildRow values rowIdx hs (i + 1)
        (setField entry h ((values.get? i).elim CellVal.undef CellVal.str))

/-- The `lines.slice(1).map((line, index) => ...)` loop (lines 131–151): the
first thrown bad-cell error aborts the whole parse. -/
def parseRows (header : List String) : List String → Nat → Except CsvError (List CsvEntry)
  | [], _ => .ok []
  | line :: rest, idx =>
    match buildRow (splitCells line) idx header 0 [] with
    | .error e => .error e
    | .ok entry =>
      match parseRows header rest (idx + 1) with
      | .error e => .error e
      | .ok entries => .ok (⟨csvId idx, entry⟩ :: entries)

/-- `parseCSV` (lines 116–156 of `src/App.tsx`). -/
def parseCSV (text : String) : ParseResult :=
  match splitLines text with
  | [] => ⟨[], some .empty⟩
  | [_] => ⟨[], some .empty⟩
  | first :: rest =>
    let header := splitCells first
    let missing := requiredHeaders.filter (fun rh => !header.contains rh)
    if missing.isEmpty then
      match parseRows header rest 0 with
      | .ok data => ⟨data, none⟩
      | .error e => ⟨[], some e⟩
    else ⟨[], some (.missingHeaders missing)⟩

/-- Reading a parsed row's field as a string (`entry as SalesData` for the
string-typed fields). -/
def fieldStr (r : Row) (k : String) : String :=
  match getField r k with
  | some (.str s) => s
  | _ => ""

/-- Reading a parsed row's field as a number (`entry as SalesData` for the
number-typed fields). -/
def fieldNum (r : Row) (k : String) : Int :=
  match getField r k with
  | some (.num v) => v
  | _ => 0

/-- The structural cast `entry as SalesData` performed at line 150: the parsed
row object flows into the ledger as a `SalesData` record. -/
def entryToSales (e : CsvEntry) : SalesData :=
  { id := e.id
    tanggal := fieldStr e.fields "tanggal"
    nama_produk := fieldStr e.fields "nama_produk"
    jumlah_terjual := fieldNum e.fields "jumlah_terjual"
    harga_beli := fieldNum e.fields "harga_beli"
    harga_jual := fieldNum e.fields "harga_jual"
    total_penjualan := fieldNum e.fields "total_penjualan"
    total_biaya := fieldNum e.fields "total_biaya"
    laba := fieldNum e.fields "laba"
    stok_sisa := fieldNum e.fields "stok_sisa" }

/-- The key set `Object.keys(data[0]).filter(k => k !== 'id')` used as the
export header by `exportToCSV` (line 168), for one record. -/
def exportKeys (e : CsvEntry) : List String := e.fields.map Prod.fst

/-- Whether a position `i` of cell lists `c1`, `c2` may be inspected: the two
lists agree at every position that is not a `stok_sisa` column of the header.
Bounded (hence decidable) form; positions past both lists agree trivially. -/
def cellsAgreeOutsideStok (header c1 c2 : List String) : Bool :=
  (List.range (max c1.length c2.length)).all fun i =>
    header.get? i == some "stok_sisa" || c1.get? i == c2.get? i

/-- Two CSV texts are identical except for the values in the `stok_sisa`
column: same non-empty lines up to the cells sitting under a `stok_sisa`
header position. -/
def csvAgreeExceptStok (t1 t2 : String) : Bool :=
  match splitLines t1, splitLines t2 with
  | h1 :: r1, h2 :: r2 =>
    splitCells h1 == splitCells h2 && r1.length == r2.length &&
      (r1.zip r2).all fun p => cellsAgreeOutsideStok (splitCells h1) (splitCells p.1) (splitCells p.2)
  | l1, l2 => l1 == l2

/-- The per-product stock table after replaying a transaction list (the state
of `currentStocks` at lines 76–103, taken at the end of the loop or, for a
prefix, just before the next transaction). -/
def finalStocks (stocks : StockMap) : List SalesData → StockMap
  | [] => stocks
  | t :: ts =>
    finalStocks (setStock stocks t.nama_produk (stepStock (lookup0 stocks t.nama_produk) t)) ts

/-- A product's sale transactions (its records that are not stock
adjustments), in input order. -/
def salesOf (tx : List SalesData) (p : String) : List SalesData :=
  (groupOf tx p).filter (fun t => t.jumlah_terjual != 0)

/-- Whether a data row has a non-numeric value in a numeric column, checked
positionally against the header from position `i` on (mirrors `buildRow`). -/
def rowBad (values : List String) : List String → Nat → Bool
  | [], _ => false
  | h :: hs, i =>
    (numericCols.contains h && ((values.get? i).bind parseNumJS).isNone) || rowBad values hs (i + 1)

/-- A concrete sale record (derived monetary fields zeroed), for witnesses. -/
def mkSale (i tgl nama : String) (qty : Int) : SalesData :=
  ⟨i, tgl, nama, qty, 0, 0, 0, 0, 0, 0⟩

/-- A concrete stock-adjustment record (`jumlah_terjual = 0`, `stok_sisa` the
new stock level), for witnesses. -/
def mkAdj (i tgl nama : String) (newStok : Int) : SalesData :=
  ⟨i, tgl, nama, 0, 0, 0, 0, 0, 0, newStok⟩

/-! ### Association-list map lemmas -/

theorem lookup_setStock_self (m : StockMap) (k : String) (v : Int) :
    lookupStock (setStock m k v) k = some v := by
  induction m with
  | nil => simp [setStock, lookupStock]
  | cons kv r ih =>
    obtain ⟨a, b⟩ := kv
    by_cases h : a = k
    · simp [setStock, lookupStock, h]
    · simp [setStock, lookupStock, h, ih]

theorem lookup_setStock_ne (m : StockMap) (k k' : String) (v : Int) (h : k' ≠ k) :
    lookupStock (setStock m k v) k' = lookupStock m k' := by
  induction m with
  | nil => simp [setStock, lookupStock, Ne.symm h]
  | cons kv r ih =>
    obtain ⟨a, b⟩ := kv
    by_cases ha : a = k
    · subst ha
      simp [setStock, lookupStock, Ne.symm h]
    · simp [setStock, lookupStock, ha, ih]

theorem lookup0_setStock_self (m : StockMap) (k : String) (v : Int) :
    lookup0 (setStock m k v) k = v := by
  simp [lookup0, lookup_setStock_self]

theorem lookup0_setStock_ne (m : StockMap) (k k' : String) (v : Int) (h : k' ≠ k) :
    lookup0 (setStock m k v) k' = lookup0 m k' := by
  simp [lookup0, lookup_setStock_ne m k k' v h]

/-! ### Replay-step characterization -/

/-- One step of `replayGo`, expressed through `stepStock`. -/
theorem replayGo_cons_eq (stocks : StockMap) (t : SalesData) (ts : List SalesData) :
    replayGo stocks (t :: ts) =
      if t.jumlah_terjual ≠ 0 ∧ stepStock (lookup0 stocks t.nama_produk) t < 0 then
        .error ⟨t.nama_produk, t.tanggal, lookup0 stocks t.nama_produk, t.jumlah_terjual⟩
      else
        match replayGo (setStock stocks t.nama_produk (stepStock (lookup0 stocks t.nama_produk) t)) ts with
        | .ok rest => .ok ({ t with stok_sisa := stepStock (lookup0 stocks t.nama_produk) t } :: rest)
        | .error e => .error e := by
  by_cases hq : t.jumlah_terjual = 0
  · simp [replayGo, stepStock, hq]
  · by_cases hneg : lookup0 stocks t.nama_produk - t.jumlah_terjual < 0
    · simp [replayGo, stepStock, hq, hneg]
    · simp [replayGo, stepStock, hq, hneg]

/-- Inversion of a successful replay step. -/
theorem replayGo_cons_ok {stocks : StockMap} {t : SalesData} {ts : List SalesData}
    {out : List SalesData} (h : replayGo stocks (t :: ts) = .ok out) :
    ∃ rest, out = { t with stok_sisa := stepStock (lookup0 stocks t.nama_produk) t } :: rest ∧
      replayGo (setStock stocks t.nama_produk (stepStock (lookup0 stocks t.nama_produk) t)) ts
        = .ok rest ∧
      (t.jumlah_terjual ≠ 0 → 0 ≤ stepStock (lookup0 stocks t.nama_produk) t) := by
  rw [replayGo_cons_eq] at h
  split at h
  · exact absurd h (by simp)
  · rename_i hcond
    split at h
    · rename_i rest hrest
      refine ⟨rest, ?_, hrest, ?_⟩
      · exact (Except.ok.injEq _ _ ▸ h).symm ▸ rfl
      · intro hq
        by_contra hneg
        exact hcond ⟨hq, by omega⟩
    · exact absurd h (by simp)

theorem eraseStok_set (t : SalesData) (v : Int) :
    eraseStok { t with stok_sisa := v } = eraseStok t := rfl

theorem stepStock_set (acc acc' : Int) (t : SalesData) (v : Int) :
    stepStock acc' { t with stok_sisa := stepStock acc t } = stepStock acc' t ∨
      stepStock acc' { t with stok_sisa := stepStock acc t } = stepStock acc t := by
  by_cases hq : t.jumlah_terjual = 0
  · right; simp [stepStock, hq]
  · left; simp [stepStock, hq]

/-- A successful replay changes no field other than `stok_sisa` and keeps the
order of its (sorted) input. -/
theorem replayGo_ok_erase {stocks : StockMap} :
    ∀ {l out : List SalesData}, replayGo stocks l = .ok out →
      out.map eraseStok = l.map eraseStok := by
  intro l
  induction l generalizing stocks with
  | nil => intro out h; cases h; rfl
  | cons t ts ih =>
    intro out h
    obtain ⟨rest, hout, hrest, -⟩ := replayGo_cons_ok h
    subst hout
    simp [List.map_cons, eraseStok_set, ih hrest]

/-- Every record emitted by a successful replay has a non-negative
`stok_sisa` if it is a sale; if it is an adjustment, its `stok_sisa` is
copied from an adjustment of the input list. -/
theorem replayGo_ok_emit {stocks : StockMap} :
    ∀ {l out : List SalesData}, replayGo stocks l = .ok out →
      ∀ u ∈ out, (u.jumlah_terjual ≠ 0 → 0 ≤ u.stok_sisa) ∧
        (u.jumlah_terjual = 0 → ∃ t ∈ l, t.jumlah_terjual = 0 ∧ u.stok_sisa = t.stok_sisa) := by
  intro l
  induction l generalizing stocks with
  | nil => intro out h; cases h; intro u hu; cases hu
  | cons t ts ih =>
    intro out h u hu
    obtain ⟨rest, hout, hrest, hpos⟩ := replayGo_cons_ok h
    subst hout
    rcases List.mem_cons.1 hu with hu | hu
    · subst hu
      constructor
      · intro hq; exact hpos hq
      · intro hq
        have hq' : t.jumlah_terjual = 0 := hq
        exact ⟨t, List.mem_cons_self _ _, hq', by simp [stepStock, hq']⟩
    · obtain ⟨h1, h2⟩ := ih hrest u hu
      refine ⟨h1, fun hq => ?_⟩
      obtain ⟨t₀, ht₀, hq₀, he₀⟩ := h2 hq
      exact ⟨t₀, List.mem_cons_of_mem _ ht₀, hq₀, he₀⟩

/-- The `stok_sisa` values emitted for one product are exactly the stock
levels of the per-product fold, from that product's opening level. -/
theorem replayGo_ok_trace {stocks : StockMap} :
    ∀ {l out : List SalesData}, replayGo stocks l = .ok out → ∀ p,
      (out.filter (fun u => u.nama_produk == p)).map (·.stok_sisa)
        = stockTrace (lookup0 stocks p) (l.filter (fun u => u.nama_produk == p)) := by
  intro l
  induction l generalizing stocks with
  | nil => intro out h p; cases h; rfl
  | cons t ts ih =>
    intro out h p
    obtain ⟨rest, hout, hrest, -⟩ := replayGo_cons_ok h
    subst hout
    by_cases hp : t.nama_produk = p
    · rw [List.filter_cons_of_pos (by simpa using hp), List.filter_cons_of_pos (by simpa using hp)]
      have hlook : lookup0 (setStock stocks t.nama_produk (stepStock (lookup0 stocks t.nama_produk) t)) p
          = stepStock (lookup0 stocks p) t := by
        rw [← hp, lookup0_setStock_self]
      rw [List.map_cons, stockTrace, ih hrest p, hlook]
      simp [hp]
    · rw [List.filter_cons_of_neg (by simpa using hp), List.filter_cons_of_neg (by simpa using hp)]
      have hlook : lookup0 (setStock stocks t.nama_produk (stepStock (lookup0 stocks t.nama_produk) t)) p
          = lookup0 stocks p := lookup0_setStock_ne _ _ _ _ (fun hh => hp hh.symm)
      rw [ih hrest p, hlook]

/-- Replaying a successful replay's output from the same opening stocks
succeeds and returns it unchanged. -/
theorem replayGo_ok_idem {stocks : StockMap} :
    ∀ {l out : List SalesData}, replayGo stocks l = .ok out →
      replayGo stocks out = .ok out := by
  intro l
  induction l generalizing stocks with
  | nil => intro out h; cases h; rfl
  | cons t ts ih =>
    intro out h
    obtain ⟨rest, hout, hrest, hpos⟩ := replayGo_cons_ok h
    by_cases hq : t.jumlah_terjual = 0
    · rw [show stepStock (lookup0 stocks t.nama_produk) t = t.stok_sisa from by
        simp [stepStock, hq]] at hout hrest
      subst hout
      have ihh := ih hrest
      simp [replayGo, hq, ihh]
    · have hnn := hpos hq
      rw [show stepStock (lookup0 stocks t.nama_produk) t
          = lookup0 stocks t.nama_produk - t.jumlah_terjual from by
        simp [stepStock, hq]] at hout hrest hnn
      subst hout
      have ihh := ih hrest
      simp [replayGo, hq, ihh, not_lt.2 hnn]

/-- A failing replay pinpoints an actual transaction of its input: the input
splits at the failing sale, whose product, date, quantity and pre-transaction
stock level are the ones reported. -/
theorem replayGo_error {stocks : StockMap} :
    ∀ {l : List SalesData} {e : ReplayError}, replayGo stocks l = .error e →
      ∃ l1 t l2, l = l1 ++ t :: l2 ∧ t.nama_produk = e.product ∧ t.tanggal = e.date ∧
        t.jumlah_terjual = e.quantity ∧ t.jumlah_terjual ≠ 0 ∧
        e.stockBefore = lookup0 (finalStocks stocks l1) t.nama_produk ∧
        e.stockBefore - e.quantity < 0 := by
  intro l
  induction l generalizing stocks with
  | nil => intro e h; cases h
  | cons t ts ih =>
    intro e h
    rw [replayGo_cons_eq] at h
    by_cases hc : t.jumlah_terjual ≠ 0 ∧ stepStock (lookup0 stocks t.nama_produk) t < 0
    · rw [if_pos hc] at h
      cases h
      refine ⟨[], t, ts, rfl, rfl, rfl, rfl, hc.1, rfl, ?_⟩
      have h2 := hc.2
      simp only [stepStock, if_neg hc.1] at h2
      exact h2
    · rw [if_neg hc] at h
      cases hrec : replayGo (setStock stocks t.nama_produk
          (stepStock (lookup0 stocks t.nama_produk) t)) ts with
      | ok rest => rw [hrec] at h; cases h
      | error e' =>
        rw [hrec] at h
        cases h
        obtain ⟨l1, u, l2, hsplit, h1, h2, h3, h4, h5, h6⟩ := ih hrec
        refine ⟨t :: l1, u, l2, by rw [hsplit]; rfl, h1, h2, h3, h4, ?_, h6⟩
        rw [h5]; rfl

theorem process_eq_ok {d : List SalesData} {S : StockMap} {out : List SalesData}
    (h : replayGo S (sortByDate d) = .ok out) : processAndValidateData d S = ⟨out, none⟩ := by
  simp [processAndValidateData, h]

theorem process_error_none {d : List SalesData} {S : StockMap}
    (h : (processAndValidateData d S).error = none) :
    replayGo S (sortByDate d) = .ok ((processAndValidateData d S).processedData) := by
  cases hrep : replayGo S (sortByDate d) with
  | ok out => simp [processAndValidateData, hrep]
  | error e => simp [processAndValidateData, hrep] at h

theorem process_error_some {d : List SalesData} {S : StockMap} {e : ReplayError}
    (h : (processAndValidateData d S).error = some e) :
    replayGo S (sortByDate d) = .error e ∧ (processAndValidateData d S).processedData = [] := by
  cases hrep : replayGo S (sortByDate d) with
  | ok out => simp [processAndValidateData, hrep] at h
  | error e' =>
    have : e' = e := by simpa [processAndValidateData, hrep] using h
    subst this
    simp [processAndValidateData, hrep]

/-! ### Sorting lemmas -/

theorem sortByDate_perm (l : List SalesData) : List.Perm (sortByDate l) l :=
  List.perm_insertionSort dateLE l

theorem sortByDate_sorted (l : List SalesData) : List.Sorted dateLE (sortByDate l) :=
  List.sorted_insertionSort dateLE l

theorem orderedInsert_forall_le {a : SalesData} {s : List SalesData}
    (h : ∀ x ∈ s, dateLE a x) : List.orderedInsert dateLE a s = a :: s := by
  cases s with
  | nil => rfl
  | cons b bs => simp [List.orderedInsert, h b (List.mem_cons_self _ _)]

/-- Filtering commutes with ordered insertion into a sorted list. -/
theorem filter_orderedInsert (q : SalesData → Bool) (a : SalesData) :
    ∀ {s : List SalesData}, List.Sorted dateLE s →
      (List.orderedInsert dateLE a s).filter q =
        if q a then List.orderedInsert dateLE a (s.filter q) else s.filter q := by
  intro s
  induction s with
  | nil =>
    intro _
    by_cases hq : q a <;> simp [hq]
  | cons b bs ih =>
    intro hs
    have hbs : List.Sorted dateLE bs := hs.of_cons
    by_cases hab : dateLE a b
    · have hle : ∀ x ∈ List.filter q (b :: bs), dateLE a x := by
        intro x hx
        rcases List.mem_cons.1 (List.mem_of_mem_filter hx) with h1 | h1
        · exact h1 ▸ hab
        · exact Nat.le_trans hab (List.rel_of_sorted_cons hs x h1)
      simp only [List.orderedInsert, if_pos hab]
      by_cases hq : q a
      · rw [List.filter_cons_of_pos (by simpa using hq), if_pos hq, orderedInsert_forall_le hle]
      · rw [List.filter_cons_of_neg (by simpa using hq), if_neg hq]
    · simp only [List.orderedInsert, if_neg hab]
      by_cases hqb : q b
      · rw [List.filter_cons_of_pos (by simpa using hqb),
          List.filter_cons_of_pos (by simpa using hqb), ih hbs]
        by_cases hq : q a
        · rw [if_pos hq, if_pos hq, List.orderedInsert, if_neg hab]
        · rw [if_neg hq, if_neg hq]
      · rw [List.filter_cons_of_neg (by simpa using hqb),
          List.filter_cons_of_neg (by simpa using hqb), ih hbs]

/-- The stable sort commutes with any filter: filtering first or sorting
first yields the same list. -/
theorem sortByDate_filter (q : SalesData → Bool) :
    ∀ l : List SalesData, sortByDate (l.filter q) = (sortByDate l).filter q := by
  intro l
  induction l with
  | nil => rfl
  | cons x xs ih =>
    show sortByDate (List.filter q (x :: xs))
        = List.filter q (List.orderedInsert dateLE x (List.insertionSort dateLE xs))
    rw [filter_orderedInsert q x (List.sorted_insertionSort dateLE xs)]
    by_cases hq : q x
    · rw [if_pos hq, List.filter_cons_of_pos (by simpa using hq)]
      show List.orderedInsert dateLE x (List.insertionSort dateLE (xs.filter q)) = _
      rw [show List.insertionSort dateLE (xs.filter q) = sortByDate (xs.filter q) from rfl, ih]
      rfl
    · rw [if_neg hq, List.filter_cons_of_neg (by simpa using hq)]
      exact ih

/-- Stability of the sort: the records carrying any fixed date value keep
their relative input order. -/
theorem sortByDate_stable (l : List SalesData) (v : Nat) :
    (sortByDate l).filter (fun t => dateValue t.tanggal == v)
      = l.filter (fun t => dateValue t.tanggal == v) := by
  rw [← sortByDate_filter]
  apply List.Sorted.insertionSort_eq
  apply List.pairwise_of_forall_mem_list
  intro a ha b hb
  have hav : dateValue a.tanggal = v := by simpa using List.of_mem_filter ha
  have hbv : dateValue b.tanggal = v := by simpa using List.of_mem_filter hb
  show dateValue a.tanggal ≤ dateValue b.tanggal
  rw [hav, hbv]

theorem sorted_of_dates_eq {l1 l2 : List SalesData}
    (h : l1.map (fun t => dateValue t.tanggal) = l2.map (fun t => dateValue t.tanggal))
    (hs : List.Sorted dateLE l2) : List.Sorted dateLE l1 := by
  have h2 : List.Pairwise (fun a b : Nat => a ≤ b) (l2.map fun t => dateValue t.tanggal) :=
    (List.pairwise_map).2 hs
  rw [← h] at h2
  exact h2.of_map (fun t => dateValue t.tanggal) (fun a b hh => hh)

theorem dates_of_erase_eq {l1 l2 : List SalesData} (h : l1.map eraseStok = l2.map eraseStok) :
    l1.map (fun t => dateValue t.tanggal) = l2.map (fun t => dateValue t.tanggal) := by
  have h2 := congrArg (List.map (fun t => dateValue t.tanggal)) h
  simpa [List.map_map, Function.comp, eraseStok] using h2

theorem ids_of_erase_eq {l1 l2 : List SalesData} (h : l1.map eraseStok = l2.map eraseStok) :
    l1.map (·.id) = l2.map (·.id) := by
  have h2 := congrArg (List.map (·.id)) h
  simpa [List.map_map, Function.comp, eraseStok] using h2

/-! ### Stock-fold lemmas -/

theorem sumQty_nil : sumQty [] = 0 := rfl

theorem sumQty_cons (t : SalesData) (ts : List SalesData) :
    sumQty (t :: ts) = t.jumlah_terjual + sumQty ts := by
  simp [sumQty]

theorem sumQty_take_cons (t : SalesData) (ts : List SalesData) (n : Nat) :
    sumQty ((t :: ts).take (n + 1)) = t.jumlah_terjual + sumQty (ts.take n) := by
  simp [sumQty]

theorem foldStock_cons (init : Int) (t : SalesData) (ts : List SalesData) :
    foldStock init (t :: ts) = foldStock (stepStock init t) ts := rfl

theorem foldStock_append (init : Int) (l1 l2 : List SalesData) :
    foldStock init (l1 ++ l2) = foldStock (foldStock init l1) l2 := by
  simp [foldStock, List.foldl_append]

theorem foldStock_no_adj :
    ∀ {l : List SalesData}, (∀ t ∈ l, t.jumlah_terjual ≠ 0) → ∀ init,
      foldStock init l = init - sumQty l := by
  intro l
  induction l with
  | nil => intro _ init; simp [foldStock, sumQty_nil]
  | cons t ts ih =>
    intro h init
    rw [foldStock_cons, ih (fun u hu => h u (List.mem_cons_of_mem _ hu)), sumQty_cons]
    have hq := h t (List.mem_cons_self _ _)
    simp [stepStock, hq]
    ring

theorem stockTrace_getLast :
    ∀ (ts : List SalesData) (init : Int) (t : SalesData),
      (stockTrace init (t :: ts)).getLast? = some (foldStock init (t :: ts)) := by
  intro ts
  induction ts with
  | nil => intro init t; rfl
  | cons u us ih =>
    intro init t
    show (stepStock init t :: stockTrace (stepStock init t) (u :: us)).getLast? = _
    rw [show stockTrace (stepStock init t) (u :: us)
        = stepStock (stepStock init t) u :: stockTrace (stepStock (stepStock init t) u) us from rfl]
    rw [List.getLast?_cons_cons]
    rw [show (stepStock (stepStock init t) u :: stockTrace (stepStock (stepStock init t) u) us)
        = stockTrace (stepStock init t) (u :: us) from rfl]
    rw [ih (stepStock init t) u]
    rfl

theorem foldStock_take_mem :
    ∀ (l : List SalesData) (init : Int) (n : Nat),
      foldStock init (l.take n) = init ∨ foldStock init (l.take n) ∈ stockTrace init l := by
  intro l
  induction l with
  | nil => intro init n; left; simp [foldStock]
  | cons t ts ih =>
    intro init n
    cases n with
    | zero => left; rfl
    | succ n' =>
      rw [List.take_succ_cons, foldStock_cons]
      rcases ih (stepStock init t) n' with h | h
      · right; rw [h]; exact List.mem_cons_self _ _
      · right; exact List.mem_cons_of_mem _ h

/-! ### Running-minimum lemmas -/

theorem runMin_le : ∀ (l : List SalesData) (s m : Int), runMin s m l ≤ m := by
  intro l
  induction l with
  | nil => intro s m; exact le_refl m
  | cons t ts ih =>
    intro s m
    rw [runMin]
    refine le_trans (ih _ _) ?_
    split <;> omega

theorem runMin_le_prefix :
    ∀ (l : List SalesData) (s m : Int) (n : Nat), 1 ≤ n → n ≤ l.length →
      runMin s m l ≤ s - sumQty (l.take n) := by
  intro l
  induction l with
  | nil => intro s m n h1 h2; simp at h2; omega
  | cons t ts ih =>
    intro s m n h1 h2
    rw [runMin]
    cases n with
    | zero => omega
    | succ n' =>
      cases Nat.eq_or_lt_of_le h1 with
      | inl h0 =>
        have : n' = 0 := by omega
        subst this
        simp only [List.take_succ_cons, List.take_zero, sumQty_cons, sumQty_nil]
        refine le_trans (runMin_le _ _ _) ?_
        split <;> omega
      | inr hgt =>
        have h1' : 1 ≤ n' := by omega
        have h2' : n' ≤ ts.length := by simpa using h2
        rw [sumQty_take_cons]
        have := ih (s - t.jumlah_terjual)
          (if s - t.jumlah_terjual < m then s - t.jumlah_terjual else m) n' h1' h2'
        omega

theorem runMin_lt_cases :
    ∀ (l : List SalesData) (s m : Int), runMin s m l < m →
      ∃ n, 1 ≤ n ∧ n ≤ l.length ∧ runMin s m l = s - sumQty (l.take n) := by
  intro l
  induction l with
  | nil => intro s m h; rw [runMin] at h; omega
  | cons t ts ih =>
    intro s m h
    rw [runMin] at h ⊢
    by_cases hlt : runMin (s - t.jumlah_terjual)
        (if s - t.jumlah_terjual < m then s - t.jumlah_terjual else m) ts
        < (if s - t.jumlah_terjual < m then s - t.jumlah_terjual else m)
    · obtain ⟨n, h1, h2, h3⟩ := ih _ _ hlt
      refine ⟨n + 1, by omega, by simpa using Nat.succ_le_succ h2, ?_⟩
      rw [sumQty_take_cons]
      omega
    · have heq : runMin (s - t.jumlah_terjual)
          (if s - t.jumlah_terjual < m then s - t.jumlah_terjual else m) ts
          = (if s - t.jumlah_terjual < m then s - t.jumlah_terjual else m) := by
        have := runMin_le ts (s - t.jumlah_terjual)
          (if s - t.jumlah_terjual < m then s - t.jumlah_terjual else m)
        omega
      refine ⟨1, le_refl 1, by simp, ?_⟩
      rw [show (t :: ts).take 1 = [t] from rfl]
      rw [heq] at h ⊢
      simp only [sumQty_cons, sumQty_nil]
      split at h
      · split <;> omega
      · omega

theorem runMin_filter :
    ∀ (l : List SalesData) (s m : Int), m ≤ s →
      runMin s m (l.filter (fun t => t.jumlah_terjual != 0)) = runMin s m l := by
  intro l
  induction l with
  | nil => intro s m _; rfl
  | cons t ts ih =>
    intro s m hms
    by_cases hq : t.jumlah_terjual = 0
    · rw [List.filter_cons_of_neg (by simp [hq])]
      rw [runMin, hq]
      have h0 : s - 0 = s := by ring
      rw [h0, if_neg (by omega)]
      exact ih s m hms
    · rw [List.filter_cons_of_pos (by simp [hq])]
      rw [runMin, runMin]
      apply ih
      split <;> omega

/-! ### Single-product replay characterization -/

/-- For a single-product list of sales, replay from opening stock `c` succeeds
exactly when no prefix of the sales drives the stock below zero. -/
theorem replaySingle (p : String) :
    ∀ (M : List SalesData) (c : Int), (∀ t ∈ M, t.nama_produk = p ∧ t.jumlah_terjual ≠ 0) →
      ((∃ out, replayGo [(p, c)] M = .ok out) ↔
        ∀ n, 1 ≤ n → n ≤ M.length → 0 ≤ c - sumQty (M.take n)) := by
  intro M
  induction M with
  | nil =>
    intro c _
    constructor
    · intro _ n h1 h2
      simp at h2
      omega
    · intro _
      exact ⟨[], rfl⟩
  | cons t ts ih =>
    intro c hM
    obtain ⟨hp, hq⟩ := hM t (List.mem_cons_self _ _)
    have hstep : stepStock (lookup0 [(p, c)] t.nama_produk) t = c - t.jumlah_terjual := by
      simp [stepStock, hq, lookup0, lookupStock, hp]
    have hset : setStock [(p, c)] t.nama_produk (c - t.jumlah_terjual)
        = [(p, c - t.jumlah_terjual)] := by
      simp [setStock, hp]
    rw [replayGo_cons_eq]
    by_cases hneg : c - t.jumlah_terjual < 0
    · rw [if_pos ⟨hq, by rw [hstep]; exact hneg⟩]
      constructor
      · rintro ⟨out, hout⟩
        cases hout
      · intro hall
        exfalso
        have h1 := hall 1 (le_refl 1) (by simp)
        rw [show (t :: ts).take 1 = [t] from rfl] at h1
        rw [sumQty_cons, sumQty_nil] at h1
        omega
    · rw [if_neg (fun hc => hneg (by rw [← hstep]; exact hc.2))]
      rw [hstep, hset]
      have ihh := ih (c - t.jumlah_terjual) (fun u hu => hM u (List.mem_cons_of_mem _ hu))
      constructor
      · rintro ⟨out, hout⟩ n h1 h2
        cases hrec : replayGo [(p, c - t.jumlah_terjual)] ts with
        | error e => rw [hrec] at hout; cases hout
        | ok rest =>
          have hPrefix := ihh.1 ⟨rest, hrec⟩
          cases n with
          | zero => omega
          | succ n' =>
            cases Nat.eq_or_lt_of_le h1 with
            | inl h0 =>
              have : n' = 0 := by omega
              subst this
              rw [show (t :: ts).take 1 = [t] from rfl, sumQty_cons, sumQty_nil]
              omega
            | inr hgt =>
              have h1' : 1 ≤ n' := by omega
              have h2' : n' ≤ ts.length := by simpa using h2
              have := hPrefix n' h1' h2'
              rw [sumQty_take_cons]
              omega
      · intro hall
        obtain ⟨out, hout⟩ := ihh.2 (fun n h1 h2 => by
          have := hall (n + 1) (by omega) (by simpa using Nat.succ_le_succ h2)
          rw [sumQty_take_cons] at this
          omega)
        exact ⟨_, by rw [hout]⟩

/-! ### Inference lemmas -/

theorem inferLoop_lookup {tx : List SalesData} {existing : StockMap} :
    ∀ {ks : List String} {k : String} {s : Int},
      lookupStock (inferLoop tx existing ks) k = some s →
        lookupStock existing k = none ∧ s = inferredFor (groupOf tx k) := by
  intro ks
  induction ks with
  | nil => intro k s h; cases h
  | cons q qs ih =>
    intro k s h
    rw [inferLoop] at h
    by_cases hex : (lookupStock existing q).isSome
    · rw [if_pos hex] at h
      exact ih h
    · rw [if_neg hex] at h
      rw [lookupStock] at h
      by_cases hk : q = k
      · subst hk
        rw [if_pos (by simp)] at h
        cases h
        refine ⟨?_, rfl⟩
        cases hl : lookupStock existing q with
        | none => rfl
        | some v => rw [hl] at hex; simp at hex
      · rw [if_neg (by simpa using hk)] at h
        exact ih h

theorem productNames_subset :
    ∀ (l : List SalesData) (acc : List String) (k : String),
      k ∈ l.foldl (fun acc t => insertNewName t.nama_produk acc) acc →
        k ∈ acc ∨ k ∈ l.map (·.nama_produk) := by
  intro l
  induction l with
  | nil => intro acc k h; exact Or.inl h
  | cons t ts ih =>
    intro acc k h
    rcases ih _ k h with h1 | h1
    · simp only [insertNewName] at h1
      split at h1
      · exact Or.inl h1
      · rcases List.mem_append.1 h1 with h2 | h2
        · exact Or.inl h2
        · right
          simp at h2
          simp [h2]
    · right
      exact List.mem_cons_of_mem _ h1

theorem inferLoop_keys {tx : List SalesData} {existing : StockMap} :
    ∀ {ks : List String} {k : String} {s : Int},
      (k, s) ∈ inferLoop tx existing ks → k ∈ ks ∧ lookupStock existing k = none := by
  intro ks
  induction ks with
  | nil => intro k s h; cases h
  | cons q qs ih =>
    intro k s h
    rw [inferLoop] at h
    split at h
    · obtain ⟨h1, h2⟩ := ih h
      exact ⟨List.mem_cons_of_mem _ h1, h2⟩
    · rcases List.mem_cons.1 h with h1 | h1
      · obtain ⟨hk, -⟩ := Prod.mk.injEq .. ▸ h1
        rename_i hex
        subst hk
        refine ⟨List.mem_cons_self _ _, ?_⟩
        cases hl : lookupStock existing k with
        | none => rfl
        | some v => rw [hl] at hex; simp at hex
      · obtain ⟨h2, h3⟩ := ih h1
        exact ⟨List.mem_cons_of_mem _ h2, h3⟩

theorem lookupStock_mem :
    ∀ {m : StockMap} {p : String} {v : Int}, lookupStock m p = some v → (p, v) ∈ m := by
  intro m
  induction m with
  | nil => intro p v h; cases h
  | cons kv r ih =>
    intro p v h
    obtain ⟨a, b⟩ := kv
    rw [lookupStock] at h
    by_cases ha : a = p
    · subst ha
      rw [if_pos (by simp)] at h
      cases h
      exact List.mem_cons_self _ _
    · rw [if_neg (by simpa using ha)] at h
      exact List.mem_cons_of_mem _ (ih h)

theorem lookup0_nonneg {S : StockMap} (hS : ∀ kv ∈ S, 0 ≤ kv.2) (p : String) :
    0 ≤ lookup0 S p := by
  rw [lookup0]
  cases hl : lookupStock S p with
  | none => simp
  | some v => simpa using hS (p, v) (lookupStock_mem hl)

/-! ### Claim theorems -/

/-- C1, counterexample to the claim as stated: a single stock-adjustment
record carrying a negative `stok_sisa` replays successfully (adjustments are
exempt from the non-negativity check), yet the emitted ledger contains a
negative `stok_sisa`, so a prefix fold is negative. -/
theorem claim_C1_cex :
    (processAndValidateData [mkAdj "a1" "2024-01-01" "A" (-5)] []).error = none ∧
    ¬ ∀ t ∈ (processAndValidateData [mkAdj "a1" "2024-01-01" "A" (-5)] []).processedData,
        0 ≤ t.stok_sisa := by
  decide

/-- C1 (amended): provided every adjustment record carries a non-negative
`stok_sisa` and every opening stock is non-negative, a successful replay
emits only non-negative `stok_sisa` values and every prefix of every
product's chronologically-sorted transactions folds to a non-negative stock
level; a failing replay returns an error whose reported pre-transaction
stock and quantity witness the violated check and name an actual input
transaction's product, date and quantity. -/
theorem claim_C1 (data : List SalesData) (S : StockMap)
    (hAdj : ∀ t ∈ data, t.jumlah_terjual = 0 → 0 ≤ t.stok_sisa)
    (hS : ∀ kv ∈ S, 0 ≤ kv.2) :
    ((processAndValidateData data S).error = none →
      (∀ t ∈ (processAndValidateData data S).processedData, 0 ≤ t.stok_sisa) ∧
      ∀ p n, 0 ≤ foldStock (lookup0 S p)
        (((sortByDate data).filter (fun t => t.nama_produk == p)).take n)) ∧
    ∀ e, (processAndValidateData data S).error = some e →
      e.stockBefore - e.quantity < 0 ∧
      ∃ t, t ∈ data ∧ t.nama_produk = e.product ∧ t.tanggal = e.date ∧
        t.jumlah_terjual = e.quantity := by
  constructor
  · intro hok
    have hrep := process_error_none hok
    have hemit := replayGo_ok_emit hrep
    have hnn : ∀ t ∈ (processAndValidateData data S).processedData, 0 ≤ t.stok_sisa := by
      intro u hu
      obtain ⟨h1, h2⟩ := hemit u hu
      by_cases hq : u.jumlah_terjual = 0
      · obtain ⟨t₀, ht₀, hq₀, he₀⟩ := h2 hq
        have ht₀' : t₀ ∈ data := ((sortByDate_perm data).mem_iff).1 ht₀
        rw [he₀]
        exact hAdj t₀ ht₀' hq₀
      · exact h1 hq
    refine ⟨hnn, ?_⟩
    intro p n
    have htr := replayGo_ok_trace hrep p
    rcases foldStock_take_mem ((sortByDate data).filter (fun t => t.nama_produk == p))
        (lookup0 S p) n with h | h
    · rw [h]; exact lookup0_nonneg hS p
    · rw [← htr] at h
      obtain ⟨u, hu, hval⟩ := List.mem_map.1 h
      rw [← hval]
      exact hnn u (List.mem_of_mem_filter hu)
  · intro e herr
    obtain ⟨hrep, -⟩ := process_error_some herr
    obtain ⟨l1, t, l2, hsplit, h1, h2, h3, -, -, h6⟩ := replayGo_error hrep
    refine ⟨h6, t, ?_, h1, h2, h3⟩
    have : t ∈ sortByDate data := by
      rw [hsplit]
      exact List.mem_append_right _ (List.mem_cons_self _ _)
    exact ((sortByDate_perm data).mem_iff).1 this

/-- Witness for C1 at a concrete input: one sale of 3 units of product A with
opening stock 5 replays successfully. -/
theorem claim_C1_witness :
    ((processAndValidateData [mkSale "s1" "2024-01-02" "A" 3] [("A", 5)]).error = none →
      (∀ t ∈ (processAndValidateData [mkSale "s1" "2024-01-02" "A" 3]
          [("A", 5)]).processedData, 0 ≤ t.stok_sisa) ∧
      ∀ p n, 0 ≤ foldStock (lookup0 [("A", 5)] p)
        (((sortByDate [mkSale "s1" "2024-01-02" "A" 3]).filter
          (fun t => t.nama_produk == p)).take n)) ∧
    ∀ e, (processAndValidateData [mkSale "s1" "2024-01-02" "A" 3] [("A", 5)]).error = some e →
      e.stockBefore - e.quantity < 0 ∧
      ∃ t, t ∈ [mkSale "s1" "2024-01-02" "A" 3] ∧ t.nama_produk = e.product ∧
        t.tanggal = e.date ∧ t.jumlah_terjual = e.quantity :=
  claim_C1 [mkSale "s1" "2024-01-02" "A" 3] [("A", 5)] (by decide) (by decide)

/-- C2: a failing replay returns an empty transaction sequence, and the error
reports a quantity exceeding the reported pre-transaction stock together with
the product name, date and quantity of an actual transaction of the input —
the one at the failing position of the chronologically-sorted input, whose
recorded pre-transaction stock is the replayed stock table's value there. -/
theorem claim_C2 (data : List SalesData) (S : StockMap) (e : ReplayError)
    (h : (processAndValidateData data S).error = some e) :
    (processAndValidateData data S).processedData = [] ∧
    e.stockBefore - e.quantity < 0 ∧
    ∃ l1 t l2, sortByDate data = l1 ++ t :: l2 ∧ t ∈ data ∧
      t.nama_produk = e.product ∧ t.tanggal = e.date ∧ t.jumlah_terjual = e.quantity ∧
      t.jumlah_terjual ≠ 0 ∧ e.stockBefore = lookup0 (finalStocks S l1) t.nama_produk := by
  obtain ⟨hrep, hempty⟩ := process_error_some h
  obtain ⟨l1, t, l2, hsplit, h1, h2, h3, h4, h5, h6⟩ := replayGo_error hrep
  refine ⟨hempty, h6, l1, t, l2, hsplit, ?_, h1, h2, h3, h4, h5⟩
  have : t ∈ sortByDate data := by
    rw [hsplit]
    exact List.mem_append_right _ (List.mem_cons_self _ _)
  exact ((sortByDate_perm data).mem_iff).1 this

/-- Witness for C2 at a concrete input: selling 5 units of A with no opening
stock fails, reporting pre-stock 0 and quantity 5. -/
theorem claim_C2_witness :
    (processAndValidateData [mkSale "s1" "2024-01-01" "A" 5] []).processedData = [] ∧
    (⟨"A", "2024-01-01", 0, 5⟩ : ReplayError).stockBefore
      - (⟨"A", "2024-01-01", 0, 5⟩ : ReplayError).quantity < 0 ∧
    ∃ l1 t l2, sortByDate [mkSale "s1" "2024-01-01" "A" 5] = l1 ++ t :: l2 ∧
      t ∈ [mkSale "s1" "2024-01-01" "A" 5] ∧
      t.nama_produk = (⟨"A", "2024-01-01", 0, 5⟩ : ReplayError).product ∧
      t.tanggal = (⟨"A", "2024-01-01", 0, 5⟩ : ReplayError).date ∧
      t.jumlah_terjual = (⟨"A", "2024-01-01", 0, 5⟩ : ReplayError).quantity ∧
      t.jumlah_terjual ≠ 0 ∧
      (⟨"A", "2024-01-01", 0, 5⟩ : ReplayError).stockBefore
        = lookup0 (finalStocks [] l1) t.nama_produk :=
  claim_C2 [mkSale "s1" "2024-01-01" "A" 5] [] ⟨"A", "2024-01-01", 0, 5⟩ (by decide)

/-- C4: replay is idempotent — feeding a successful replay's output back with
the same opening stocks reproduces the result exactly. -/
theorem claim_C4 (T : List SalesData) (S : StockMap)
    (h : (processAndValidateData T S).error = none) :
    processAndValidateData ((processAndValidateData T S).processedData) S
      = processAndValidateData T S := by
  have hrep := process_error_none h
  have hErase := replayGo_ok_erase hrep
  have hsorted : List.Sorted dateLE ((processAndValidateData T S).processedData) :=
    sorted_of_dates_eq (dates_of_erase_eq hErase) (sortByDate_sorted T)
  have hsort_eq : sortByDate ((processAndValidateData T S).processedData)
      = (processAndValidateData T S).processedData := hsorted.insertionSort_eq
  have hidem := replayGo_ok_idem hrep
  have hok2 : replayGo S (sortByDate ((processAndValidateData T S).processedData))
      = .ok ((processAndValidateData T S).processedData) := by
    rw [hsort_eq]; exact hidem
  rw [process_eq_ok hok2, process_eq_ok hrep]

/-- Witness for C4 at a concrete input. -/
theorem claim_C4_witness :
    processAndValidateData
        ((processAndValidateData [mkSale "s1" "2024-01-02" "A" 3] [("A", 5)]).processedData)
        [("A", 5)]
      = processAndValidateData [mkSale "s1" "2024-01-02" "A" 3] [("A", 5)] :=
  claim_C4 [mkSale "s1" "2024-01-02" "A" 3] [("A", 5)] (by decide)

/-- C7: on success the returned sequence is the stable date-sort of the input
with only `stok_sisa` rewritten — record for record it equals the sorted
input up to `stok_sisa`, it is date-sorted, records of any fixed date keep
their relative input order, the cardinality matches, and the multiset of ids
is that of the input. -/
theorem claim_C7 (data : List SalesData) (S : StockMap)
    (h : (processAndValidateData data S).error = none) :
    ((processAndValidateData data S).processedData.map eraseStok
        = (sortByDate data).map eraseStok) ∧
    List.Pairwise dateLE (processAndValidateData data S).processedData ∧
    (∀ v : Nat, ((processAndValidateData data S).processedData.filter
        (fun t => dateValue t.tanggal == v)).map eraseStok
      = (data.filter (fun t => dateValue t.tanggal == v)).map eraseStok) ∧
    (processAndValidateData data S).processedData.length = data.length ∧
    List.Perm ((processAndValidateData data S).processedData.map (·.id))
      (data.map (·.id)) := by
  have hrep := process_error_none h
  have hErase := replayGo_ok_erase hrep
  have key : ∀ (l : List SalesData) (v : Nat),
      (l.filter (fun t => dateValue t.tanggal == v)).map eraseStok
        = (l.map eraseStok).filter (fun t => dateValue t.tanggal == v) := by
    intro l v
    rw [List.filter_map]
    congr 1
  refine ⟨hErase, ?_, ?_, ?_, ?_⟩
  · exact sorted_of_dates_eq (dates_of_erase_eq hErase) (sortByDate_sorted data)
  · intro v
    rw [key, hErase, ← key, sortByDate_stable, key]
  · have hlen := congrArg List.length hErase
    simp only [List.length_map] at hlen
    rw [hlen, (sortByDate_perm data).length_eq]
  · rw [ids_of_erase_eq hErase]
    exact (sortByDate_perm data).map (·.id)

/-- Witness for C7 at a concrete input: two same-date sales of A and a later
sale of B, with opening stocks. -/
theorem claim_C7_witness :
    ((processAndValidateData
        [mkSale "s1" "2024-01-02" "A" 1, mkSale "s2" "2024-01-01" "B" 2,
          mkSale "s3" "2024-01-02" "A" 1]
        [("A", 5), ("B", 5)]).processedData.map eraseStok
      = (sortByDate [mkSale "s1" "2024-01-02" "A" 1, mkSale "s2" "2024-01-01" "B" 2,
          mkSale "s3" "2024-01-02" "A" 1]).map eraseStok) ∧
    List.Pairwise dateLE (processAndValidateData
        [mkSale "s1" "2024-01-02" "A" 1, mkSale "s2" "2024-01-01" "B" 2,
          mkSale "s3" "2024-01-02" "A" 1]
        [("A", 5), ("B", 5)]).processedData ∧
    (∀ v : Nat, ((processAndValidateData
        [mkSale "s1" "2024-01-02" "A" 1, mkSale "s2" "2024-01-01" "B" 2,
          mkSale "s3" "2024-01-02" "A" 1]
        [("A", 5), ("B", 5)]).processedData.filter
          (fun t => dateValue t.tanggal == v)).map eraseStok
      = ([mkSale "s1" "2024-01-02" "A" 1, mkSale "s2" "2024-01-01" "B" 2,
          mkSale "s3" "2024-01-02" "A" 1].filter
            (fun t => dateValue t.tanggal == v)).map eraseStok) ∧
    (processAndValidateData
        [mkSale "s1" "2024-01-02" "A" 1, mkSale "s2" "2024-01-01" "B" 2,
          mkSale "s3" "2024-01-02" "A" 1]
        [("A", 5), ("B", 5)]).processedData.length
      = [mkSale "s1" "2024-01-02" "A" 1, mkSale "s2" "2024-01-01" "B" 2,
          mkSale "s3" "2024-01-02" "A" 1].length ∧
    List.Perm ((processAndValidateData
        [mkSale "s1" "2024-01-02" "A" 1, mkSale "s2" "2024-01-01" "B" 2,
          mkSale "s3" "2024-01-02" "A" 1]
        [("A", 5), ("B", 5)]).processedData.map (·.id))
      ([mkSale "s1" "2024-01-02" "A" 1, mkSale "s2" "2024-01-01" "B" 2,
          mkSale "s3" "2024-01-02" "A" 1].map (·.id)) :=
  claim_C7 [mkSale "s1" "2024-01-02" "A" 1, mkSale "s2" "2024-01-01" "B" 2,
      mkSale "s3" "2024-01-02" "A" 1] [("A", 5), ("B", 5)] (by decide)

/-- C9: every binding produced by `inferInitialStocks` concerns a key absent
from the existing opening-stock map (so nothing is ever overwritten), and
that key names a product occurring in the input transactions. -/
theorem claim_C9 (tx : List SalesData) (existing : StockMap) (k : String) (s : Int)
    (h : (k, s) ∈ inferInitialStocks tx existing) :
    lookupStock existing k = none ∧ k ∈ tx.map (·.nama_produk) := by
  obtain ⟨hk, hnone⟩ := inferLoop_keys h
  refine ⟨hnone, ?_⟩
  rcases productNames_subset tx [] k hk with h1 | h1
  · cases h1
  · exact h1

/-- Witness for C9 at a concrete input. -/
theorem claim_C9_witness :
    lookupStock [] "A" = none ∧
    "A" ∈ [mkSale "s1" "2024-01-01" "A" 2].map (·.nama_produk) :=
  claim_C9 [mkSale "s1" "2024-01-01" "A" 2] [] "A" 2 (by decide)

/-- C3: for every product the inference produced a value for (i.e. every
product of the input absent from the known opening-stock map), the inferred
opening stock is non-negative, replaying that product's sales with it
succeeds, and replaying them with any smaller non-negative opening stock
fails. -/
theorem claim_C3 (tx : List SalesData) (existing : StockMap) (p : String) (s : Int)
    (h : lookupStock (inferInitialStocks tx existing) p = some s) :
    0 ≤ s ∧
    (processAndValidateData (salesOf tx p) [(p, s)]).error = none ∧
    ∀ s' : Int, 0 ≤ s' → s' < s →
      (processAndValidateData (salesOf tx p) [(p, s')]).error ≠ none := by
  obtain ⟨-, hs⟩ := inferLoop_lookup h
  have hm0 : runMin 0 0 (sortByDate (groupOf tx p)) ≤ 0 := runMin_le _ 0 0
  have hsabs : s = -(runMin 0 0 (sortByDate (groupOf tx p))) := by
    rw [hs]
    simp only [inferredFor]
    exact abs_of_nonpos hm0
  have hM : sortByDate (salesOf tx p)
      = (sortByDate (groupOf tx p)).filter (fun t => t.jumlah_terjual != 0) := by
    rw [salesOf]
    exact sortByDate_filter _ (groupOf tx p)
  have hmem : ∀ t ∈ sortByDate (salesOf tx p), t.nama_produk = p ∧ t.jumlah_terjual ≠ 0 := by
    intro t ht
    rw [hM] at ht
    have h1 := List.of_mem_filter ht
    have h3 : t ∈ groupOf tx p :=
      ((sortByDate_perm (groupOf tx p)).mem_iff).1 (List.mem_of_mem_filter ht)
    have h4 := List.of_mem_filter h3
    exact ⟨by simpa using h4, by simpa using h1⟩
  have hrm : runMin 0 0 (sortByDate (salesOf tx p)) = runMin 0 0 (sortByDate (groupOf tx p)) := by
    rw [hM]
    exact runMin_filter _ 0 0 (le_refl 0)
  have hproc : ∀ c : Int, (processAndValidateData (salesOf tx p) [(p, c)]).error = none ↔
      ∃ out, replayGo [(p, c)] (sortByDate (salesOf tx p)) = .ok out := by
    intro c
    cases hr : replayGo [(p, c)] (sortByDate (salesOf tx p)) with
    | ok out => simp [processAndValidateData, hr]
    | error e => simp [processAndValidateData, hr]
  refine ⟨by omega, ?_, ?_⟩
  · rw [hproc s, replaySingle p (sortByDate (salesOf tx p)) s hmem]
    intro n h1 h2
    have hp := runMin_le_prefix (sortByDate (salesOf tx p)) 0 0 n h1 h2
    rw [hrm] at hp
    omega
  · intro s' hs0 hlt
    rw [Ne, hproc s', replaySingle p (sortByDate (salesOf tx p)) s' hmem]
    intro hall
    have hmneg : runMin 0 0 (sortByDate (salesOf tx p)) < 0 := by omega
    obtain ⟨n, h1, h2, h3⟩ := runMin_lt_cases (sortByDate (salesOf tx p)) 0 0 hmneg
    have := hall n h1 h2
    rw [hrm] at h3
    omega

/-- Witness for C3 at a concrete input: a single sale of 5 units of a
previously unknown product A infers opening stock 5. -/
theorem claim_C3_witness :
    0 ≤ (5 : Int) ∧
    (processAndValidateData (salesOf [mkSale "s1" "2024-01-01" "A" 5] "A")
      [("A", 5)]).error = none ∧
    ∀ s' : Int, 0 ≤ s' → s' < 5 →
      (processAndValidateData (salesOf [mkSale "s1" "2024-01-01" "A" 5] "A")
        [("A", s')]).error ≠ none :=
  claim_C3 [mkSale "s1" "2024-01-01" "A" 5] [] "A" 5 (by decide)

/-- C6: on success, for every product, the `stok_sisa` of its last emitted
transaction equals the opening stock minus the sum of sold quantities when
the product has no adjustment records, and otherwise equals the last
adjustment's `stok_sisa` minus the sum of quantities sold after it. -/
theorem claim_C6 (data : List SalesData) (S : StockMap)
    (h : (processAndValidateData data S).error = none) (p : String) :
    (((sortByDate data).filter (fun t => t.nama_produk == p)) ≠ [] →
      (∀ t ∈ (sortByDate data).filter (fun t => t.nama_produk == p),
        t.jumlah_terjual ≠ 0) →
      ((((processAndValidateData data S).processedData.filter
          (fun t => t.nama_produk == p)).map (·.stok_sisa)).getLast?
        = some (lookup0 S p
            - sumQty ((sortByDate data).filter (fun t => t.nama_produk == p))))) ∧
    ∀ l1 a l2, (sortByDate data).filter (fun t => t.nama_produk == p) = l1 ++ a :: l2 →
      a.jumlah_terjual = 0 → (∀ t ∈ l2, t.jumlah_terjual ≠ 0) →
      ((((processAndValidateData data S).processedData.filter
          (fun t => t.nama_produk == p)).map (·.stok_sisa)).getLast?
        = some (a.stok_sisa - sumQty l2)) := by
  have hrep := process_error_none h
  have htr := replayGo_ok_trace hrep p
  constructor
  · intro hne hnoadj
    obtain ⟨t, ts, hL⟩ := List.exists_cons_of_ne_nil hne
    rw [htr, hL, stockTrace_getLast, ← hL, foldStock_no_adj hnoadj]
  · intro l1 a l2 hL ha hl2
    have hne : (sortByDate data).filter (fun t => t.nama_produk == p) ≠ [] := by
      rw [hL]
      simp
    obtain ⟨t, ts, hLc⟩ := List.exists_cons_of_ne_nil hne
    rw [htr, hLc, stockTrace_getLast, ← hLc, hL, foldStock_append, foldStock_cons,
      show stepStock (foldStock (lookup0 S p) l1) a = a.stok_sisa from by simp [stepStock, ha],
      foldStock_no_adj hl2]

/-- Witness for C6 at a concrete input: adjust A to 10, then sell 3; the last
emitted record carries `stok_sisa = 10 - 3`. -/
theorem claim_C6_witness :
    (((sortByDate [mkAdj "a1" "2024-01-01" "A" 10, mkSale "s1" "2024-01-02" "A" 3]).filter
        (fun t => t.nama_produk == "A")) ≠ [] →
      (∀ t ∈ (sortByDate [mkAdj "a1" "2024-01-01" "A" 10,
          mkSale "s1" "2024-01-02" "A" 3]).filter (fun t => t.nama_produk == "A"),
        t.jumlah_terjual ≠ 0) →
      ((((processAndValidateData [mkAdj "a1" "2024-01-01" "A" 10,
            mkSale "s1" "2024-01-02" "A" 3] []).processedData.filter
          (fun t => t.nama_produk == "A")).map (·.stok_sisa)).getLast?
        = some (lookup0 [] "A"
            - sumQty ((sortByDate [mkAdj "a1" "2024-01-01" "A" 10,
                mkSale "s1" "2024-01-02" "A" 3]).filter
              (fun t => t.nama_produk == "A"))))) ∧
    ∀ l1 a l2, (sortByDate [mkAdj "a1" "2024-01-01" "A" 10,
        mkSale "s1" "2024-01-02" "A" 3]).filter (fun t => t.nama_produk == "A")
        = l1 ++ a :: l2 →
      a.jumlah_terjual = 0 → (∀ t ∈ l2, t.jumlah_terjual ≠ 0) →
      ((((processAndValidateData [mkAdj "a1" "2024-01-01" "A" 10,
            mkSale "s1" "2024-01-02" "A" 3] []).processedData.filter
          (fun t => t.nama_produk == "A")).map (·.stok_sisa)).getLast?
        = some (a.stok_sisa - sumQty l2)) :=
  claim_C6 [mkAdj "a1" "2024-01-01" "A" 10, mkSale "s1" "2024-01-02" "A" 3] []
    (by decide) "A"

/-! ### CSV row-object lemmas -/

theorem getField_setField_self (r : Row) (k : String) (v : CellVal) :
    getField (setField r k v) k = some v := by
  induction r with
  | nil => simp [setField, getField]
  | cons kv rest ih =>
    obtain ⟨a, b⟩ := kv
    by_cases h : a = k
    · simp [setField, getField, h]
    · simp [setField, getField, h, ih]

theorem getField_setField_ne (r : Row) (k k' : String) (v : CellVal) (h : k' ≠ k) :
    getField (setField r k v) k' = getField r k' := by
  induction r with
  | nil => simp [setField, getField, Ne.symm h]
  | cons kv rest ih =>
    obtain ⟨a, b⟩ := kv
    by_cases ha : a = k
    · subst ha
      simp [setField, getField, Ne.symm h]
    · simp [setField, getField, ha, ih]

theorem getField_some_mem_keys :
    ∀ {r : Row} {k : String} {v : CellVal}, getField r k = some v → k ∈ r.map Prod.fst := by
  intro r
  induction r with
  | nil => intro k v h; cases h
  | cons kv rest ih =>
    intro k v h
    obtain ⟨a, b⟩ := kv
    rw [getField] at h
    by_cases ha : a = k
    · subst ha
      exact List.mem_cons_self _ _
    · rw [if_neg (by simpa using ha)] at h
      exact List.mem_cons_of_mem _ (ih h)

/-! ### `buildRow` characterizations -/

theorem buildRow_error_shape (values : List String) (rowIdx : Nat) :
    ∀ {hs : List String} {i : Nat} {entry : Row} {e : CsvError},
      buildRow values rowIdx hs i entry = .error e →
        ∃ c, e = .badCell (rowIdx + 2) c ∧ numericCols.contains c = true := by
  intro hs
  induction hs with
  | nil => intro i entry e h; cases h
  | cons h0 hs ih =>
    intro i entry e h
    rw [buildRow] at h
    by_cases hnum : numericCols.contains h0
    · rw [if_pos hnum] at h
      cases hp : (values.get? i).bind parseNumJS with
      | some n => rw [hp] at h; exact ih h
      | none =>
        rw [hp] at h
        cases h
        exact ⟨h0, rfl, hnum⟩
    · rw [if_neg hnum] at h
      exact ih h

theorem buildRow_error_iff_rowBad (values : List String) (rowIdx : Nat) :
    ∀ (hs : List String) (i : Nat) (entry : Row),
      (∃ e, buildRow values rowIdx hs i entry = .error e) ↔ rowBad values hs i = true := by
  intro hs
  induction hs with
  | nil =>
    intro i entry
    constructor
    · rintro ⟨e, he⟩; cases he
    · intro h; cases h
  | cons h0 hs ih =>
    intro i entry
    rw [buildRow, rowBad]
    by_cases hnum : numericCols.contains h0
    · have hmem : h0 ∈ numericCols := by simpa using hnum
      rw [if_pos hnum]
      cases hp : (values.get? i).bind parseNumJS with
      | some n =>
        rw [ih (i + 1) (setField entry h0 (.num n))]
        simp [hmem, hp]
      | none => simp [hmem, hp]
    · have hmem : h0 ∉ numericCols := by simpa using hnum
      rw [if_neg hnum]
      rw [ih (i + 1) _]
      simp [hmem]

theorem buildRow_ok_iff_not_rowBad (values : List String) (rowIdx : Nat)
    (hs : List String) (i : Nat) (entry : Row) :
    (∃ R, buildRow values rowIdx hs i entry = .ok R) ↔ rowBad values hs i = false := by
  constructor
  · rintro ⟨R, hR⟩
    by_contra hc
    obtain ⟨e, he⟩ := (buildRow_error_iff_rowBad values rowIdx hs i entry).2 (by
      cases hbb : rowBad values hs i
      · exact absurd hbb hc
      · rfl)
    rw [hR] at he
    cases he
  · intro hfalse
    cases hb : buildRow values rowIdx hs i entry with
    | ok R => exact ⟨R, rfl⟩
    | error e =>
      have := (buildRow_error_iff_rowBad values rowIdx hs i entry).1 ⟨e, hb⟩
      rw [this] at hfalse
      cases hfalse

/-! ### `parseRows` characterizations -/

theorem parseRows_error_shape (header : List String) :
    ∀ {rows : List String} {idx : Nat} {e : CsvError},
      parseRows header rows idx = .error e →
        ∃ j line, rows.get? j = some line ∧
          buildRow (splitCells line) (idx + j) header 0 [] = .error e := by
  intro rows
  induction rows with
  | nil => intro idx e h; cases h
  | cons line rest ih =>
    intro idx e h
    rw [parseRows] at h
    cases hb : buildRow (splitCells line) idx header 0 [] with
    | error e' =>
      rw [hb] at h
      cases h
      exact ⟨0, line, rfl, hb⟩
    | ok entry =>
      rw [hb] at h
      cases hr : parseRows header rest (idx + 1) with
      | error e' =>
        rw [hr] at h
        cases h
        obtain ⟨j, l, hj, hbr⟩ := ih hr
        refine ⟨j + 1, l, by simpa using hj, ?_⟩
        rw [show idx + (j + 1) = idx + 1 + j from by omega]
        exact hbr
      | ok entries => rw [hr] at h; cases h

theorem parseRows_error_of_bad (header : List String) :
    ∀ {rows : List String} (idx : Nat) {line : String}, line ∈ rows →
      rowBad (splitCells line) header 0 = true →
        ∃ e, parseRows header rows idx = .error e := by
  intro rows
  induction rows with
  | nil => intro idx line h; cases h
  | cons l0 rest ih =>
    intro idx line hmem hbad
    rw [parseRows]
    cases hb : buildRow (splitCells l0) idx header 0 [] with
    | error e' => exact ⟨e', rfl⟩
    | ok entry =>
      rcases List.mem_cons.1 hmem with h1 | h1
      · subst h1
        have := (buildRow_ok_iff_not_rowBad (splitCells line) idx header 0 []).1 ⟨entry, hb⟩
        rw [this] at hbad
        cases hbad
      · obtain ⟨e, he⟩ := ih (idx + 1) h1 hbad
        rw [he]
        exact ⟨e, rfl⟩

theorem parseRows_ok_get (header : List String) :
    ∀ {rows : List String} {idx : Nat} {entries : List CsvEntry},
      parseRows header rows idx = .ok entries →
        entries.length = rows.length ∧
        ∀ j line, rows.get? j = some line →
          ∃ R, buildRow (splitCells line) (idx + j) header 0 [] = .ok R ∧
            entries.get? j = some ⟨csvId (idx + j), R⟩ := by
  intro rows
  induction rows with
  | nil =>
    intro idx entries h
    cases h
    exact ⟨rfl, fun j line hj => by cases hj⟩
  | cons l0 rest ih =>
    intro idx entries h
    rw [parseRows] at h
    cases hb : buildRow (splitCells l0) idx header 0 [] with
    | error e' => rw [hb] at h; cases h
    | ok R0 =>
      rw [hb] at h
      cases hr : parseRows header rest (idx + 1) with
      | error e' => rw [hr] at h; cases h
      | ok entries' =>
        rw [hr] at h
        cases h
        obtain ⟨hlen, hget⟩ := ih hr
        refine ⟨by simp [hlen], ?_⟩
        intro j line hj
        cases j with
        | zero =>
          cases hj
          exact ⟨R0, by simpa using hb, by simp⟩
        | succ j' =>
          obtain ⟨R, hR1, hR2⟩ := hget j' line (by simpa using hj)
          refine ⟨R, ?_, ?_⟩
          · rw [show idx + (j' + 1) = idx + 1 + j' from by omega]
            exact hR1
          · rw [show idx + (j' + 1) = idx + 1 + j' from by omega]
            simpa using hR2

/-! ### `parseCSV` structural lemmas -/

theorem missing_empty_of_all {header : List String}
    (h : requiredHeaders.all (fun rh => header.contains rh) = true) :
    requiredHeaders.filter (fun rh => !header.contains rh) = [] := by
  rw [List.filter_eq_nil]
  intro a ha
  have := List.all_eq_true.1 h a ha
  simpa using this

theorem parseCSV_ok_parseRows {text first r0 : String} {rest' : List String}
    (hsplit : splitLines text = first :: r0 :: rest')
    (hmiss : requiredHeaders.filter (fun rh => !(splitCells first).contains rh) = [])
    {d : List CsvEntry} (h : parseRows (splitCells first) (r0 :: rest') 0 = .ok d) :
    parseCSV text = ⟨d, none⟩ := by
  simp only [parseCSV, hsplit]
  rw [hmiss]
  simp [h]

theorem parseCSV_err_parseRows {text first r0 : String} {rest' : List String}
    (hsplit : splitLines text = first :: r0 :: rest')
    (hmiss : requiredHeaders.filter (fun rh => !(splitCells first).contains rh) = [])
    {e : CsvError} (h : parseRows (splitCells first) (r0 :: rest') 0 = .error e) :
    parseCSV text = ⟨[], some e⟩ := by
  simp only [parseCSV, hsplit]
  rw [hmiss]
  simp [h]

/-- C8: when the header is well-formed and there is at least one data row,
`parseCSV` reports a bad-cell error (row and column) exactly when some data
row has a non-numeric value in one of the numeric columns
(`jumlah_terjual`, `harga_beli`, `harga_jual`, `total_penjualan`,
`total_biaya`, `laba`, `stok_sisa`); in that case no records are returned,
and the reported row number points at an actual offending data row while the
reported column is a numeric column. -/
theorem claim_C8 (text first : String) (rest : List String)
    (hsplit : splitLines text = first :: rest) (hne : rest ≠ [])
    (hheader : requiredHeaders.all (fun rh => (splitCells first).contains rh) = true) :
    ((∃ r c, (parseCSV text).error = some (.badCell r c)) ↔
      ∃ line ∈ rest, rowBad (splitCells line) (splitCells first) 0 = true) ∧
    (∀ r c, (parseCSV text).error = some (.badCell r c) → (parseCSV text).data = []) ∧
    (∀ r c, (parseCSV text).error = some (.badCell r c) →
      ∃ line, rest.get? (r - 2) = some line ∧
        rowBad (splitCells line) (splitCells first) 0 = true ∧
        numericCols.contains c = true) := by
  obtain ⟨r0, rest', hr⟩ := List.exists_cons_of_ne_nil hne
  subst hr
  have hmiss := missing_empty_of_all hheader
  cases hp : parseRows (splitCells first) (r0 :: rest') 0 with
  | ok d =>
    have hcsv : parseCSV text = ⟨d, none⟩ := parseCSV_ok_parseRows hsplit hmiss hp
    rw [hcsv]
    refine ⟨⟨?_, ?_⟩, ?_, ?_⟩
    · rintro ⟨r, c, hrc⟩
      cases hrc
    · rintro ⟨line, hmem, hbad⟩
      obtain ⟨e, he⟩ := parseRows_error_of_bad (splitCells first) 0 hmem hbad
      rw [hp] at he
      cases he
    · intro r c hrc
      cases hrc
    · intro r c hrc
      cases hrc
  | error e =>
    have hcsv : parseCSV text = ⟨[], some e⟩ := parseCSV_err_parseRows hsplit hmiss hp
    obtain ⟨j, line, hj, hbr⟩ := parseRows_error_shape _ hp
    obtain ⟨c0, hc0, hnum0⟩ := buildRow_error_shape _ _ hbr
    subst hc0
    rw [hcsv]
    have hbad : rowBad (splitCells line) (splitCells first) 0 = true :=
      (buildRow_error_iff_rowBad _ _ _ _ _).1 ⟨_, hbr⟩
    refine ⟨⟨?_, ?_⟩, ?_, ?_⟩
    · rintro -
      exact ⟨line, List.get?_mem hj, hbad⟩
    · intro _
      exact ⟨0 + j + 2, c0, rfl⟩
    · intro r c hrc
      rfl
    · intro r c hrc
      have hinj : CsvError.badCell (0 + j + 2) c0 = CsvError.badCell r c := by
        simpa using hrc
      injection hinj with h1 h2
      subst h2
      refine ⟨line, ?_, hbad, hnum0⟩
      rw [← h1]
      simpa using hj

theorem numericCols_sub : ∀ c ∈ numericCols, c ∈ requiredHeaders := by
  intro c hc
  fin_cases hc <;> simp [requiredHeaders]

theorem header_split {header : List String} {i : Nat} {c : String}
    (hc : header.get? i = some c) (hcount : header.count c = 1) :
    header = header.take i ++ c :: header.drop (i + 1) ∧
    c ∉ header.take i ∧ c ∉ header.drop (i + 1) ∧ (header.take i).length = i := by
  have hlt : i < header.length := by
    by_contra hh
    rw [List.get?_eq_none.2 (by omega)] at hc
    cases hc
  have hgv : header.get ⟨i, hlt⟩ = c := by
    have := List.get?_eq_get hlt
    rw [hc] at this
    exact (Option.some.injEq .. ▸ this).symm
  have hdrop : header.drop i = c :: header.drop (i + 1) := by
    rw [List.drop_eq_get_cons hlt, hgv]
  have hsp : header = header.take i ++ c :: header.drop (i + 1) := by
    conv_lhs => rw [← List.take_append_drop i header]
    rw [hdrop]
  have hlen : (header.take i).length = i := by
    rw [List.length_take]
    omega
  have hcnt : (header.take i).count c + ((header.drop (i + 1)).count c + 1) = 1 := by
    have h2 := hcount
    rw [hsp, List.count_append] at h2
    simpa using h2
  refine ⟨hsp, ?_, ?_, hlen⟩
  · exact List.count_eq_zero.1 (by omega)
  · exact List.count_eq_zero.1 (by omega)

theorem buildRow_ok_getField_not_mem (values : List String) (rowIdx : Nat) :
    ∀ {hs : List String} {i : Nat} {entry R : Row} {c : String},
      buildRow values rowIdx hs i entry = .ok R → c ∉ hs →
        getField R c = getField entry c := by
  intro hs
  induction hs with
  | nil => intro i entry R c h _; cases h; rfl
  | cons h0 hs ih =>
    intro i entry R c h hc
    have hne : c ≠ h0 := fun hh => hc (hh ▸ List.mem_cons_self _ _)
    have hc' : c ∉ hs := fun hh => hc (List.mem_cons_of_mem _ hh)
    rw [buildRow] at h
    by_cases hnum : numericCols.contains h0
    · rw [if_pos hnum] at h
      cases hp : (values.get? i).bind parseNumJS with
      | none => rw [hp] at h; cases h
      | some n =>
        rw [hp] at h
        rw [ih h hc', getField_setField_ne _ _ _ _ hne]
    · rw [if_neg hnum] at h
      rw [ih h hc', getField_setField_ne _ _ _ _ hne]

theorem buildRow_ok_getField_at (values : List String) (rowIdx : Nat) (c : String)
    (hnumc : numericCols.contains c = false) :
    ∀ (pre : List String) (post : List String) (i : Nat) (entry R : Row),
      buildRow values rowIdx (pre ++ c :: post) i entry = .ok R →
      c ∉ pre → c ∉ post →
      getField R c = some ((values.get? (i + pre.length)).elim CellVal.undef CellVal.str) := by
  intro pre
  induction pre with
  | nil =>
    intro post i entry R h _ hpost
    rw [List.nil_append, buildRow, hnumc, if_neg Bool.false_ne_true] at h
    rw [buildRow_ok_getField_not_mem values rowIdx h hpost, getField_setField_self]
    simp
  | cons p0 pre ih =>
    intro post i entry R h hpre hpost
    have hpre' : c ∉ pre := fun hh => hpre (List.mem_cons_of_mem _ hh)
    have harith : i + 1 + pre.length = i + (p0 :: pre).length := by
      simp [List.length_cons]
      omega
    rw [List.cons_append, buildRow] at h
    by_cases hn0 : numericCols.contains p0
    · rw [if_pos hn0] at h
      cases hp : (values.get? i).bind parseNumJS with
      | none => rw [hp] at h; cases h
      | some n =>
        rw [hp] at h
        exact (ih post (i + 1) _ _ h hpre' hpost).trans (by rw [harith])
    · rw [if_neg hn0] at h
      exact (ih post (i + 1) _ _ h hpre' hpost).trans (by rw [harith])

/-- C10: a CSV whose header holds all required columns plus extra ones is not
rejected because of the extra columns — any bad-cell error names a numeric
(hence required) column, never the extra one — and on success every parsed
record carries the extra column's raw cell value under the extra header name,
which therefore appears in the record's key set (the export header source). -/
theorem claim_C10 (text first : String) (rest : List String) (i : Nat) (c : String)
    (hsplit : splitLines text = first :: rest) (hne : rest ≠ [])
    (hheader : requiredHeaders.all (fun rh => (splitCells first).contains rh) = true)
    (hc : (splitCells first).get? i = some c) (hreq : c ∉ requiredHeaders)
    (hcount : (splitCells first).count c = 1) :
    (∀ r c', (parseCSV text).error = some (.badCell r c') → c' ≠ c) ∧
    ((parseCSV text).error = none →
      (parseCSV text).data.length = rest.length ∧
      ∀ j e, (parseCSV text).data.get? j = some e →
        ∃ line, rest.get? j = some line ∧
          getField e.fields c
            = some (((splitCells line).get? i).elim CellVal.undef CellVal.str) ∧
          c ∈ exportKeys e) := by
  have hnumc : numericCols.contains c = false := by
    cases hcc : numericCols.contains c
    · rfl
    · exact absurd (numericCols_sub c (by simpa using hcc)) hreq
  obtain ⟨r0, rest', hr⟩ := List.exists_cons_of_ne_nil hne
  subst hr
  have hmiss := missing_empty_of_all hheader
  constructor
  · intro r c' hrc
    cases hp : parseRows (splitCells first) (r0 :: rest') 0 with
    | ok d =>
      rw [parseCSV_ok_parseRows hsplit hmiss hp] at hrc
      cases hrc
    | error e =>
      rw [parseCSV_err_parseRows hsplit hmiss hp] at hrc
      obtain ⟨j, line, hj, hbr⟩ := parseRows_error_shape _ hp
      obtain ⟨c0, hc0, hnum0⟩ := buildRow_error_shape _ _ hbr
      have he : e = .badCell r c' := by simpa using hrc
      rw [hc0] at he
      injection he with h1 h2
      subst h2
      intro hcc
      subst hcc
      rw [hnumc] at hnum0
      cases hnum0
  · intro hok
    cases hp : parseRows (splitCells first) (r0 :: rest') 0 with
    | error e =>
      rw [parseCSV_err_parseRows hsplit hmiss hp] at hok
      cases hok
    | ok d =>
      rw [parseCSV_ok_parseRows hsplit hmiss hp]
      dsimp only
      obtain ⟨hlen, hget⟩ := parseRows_ok_get _ hp
      refine ⟨hlen, ?_⟩
      intro j e hj
      have hjlt : j < d.length := by
        by_contra hh
        rw [List.get?_eq_none.2 (by omega)] at hj
        cases hj
      have hjrows : j < (r0 :: rest').length := by rw [← hlen]; exact hjlt
      obtain ⟨line, hline⟩ : ∃ line, (r0 :: rest').get? j = some line :=
        ⟨_, List.get?_eq_get hjrows⟩
      obtain ⟨R, hbr, hentry⟩ := hget j line hline
      have heq : e = ⟨csvId (0 + j), R⟩ := Option.some.inj (hj.symm.trans hentry)
      obtain ⟨hsp, hpre, hpost, hlenpre⟩ := header_split hc hcount
      rw [hsp] at hbr
      have hf := buildRow_ok_getField_at (splitCells line) (0 + j) c hnumc
        ((splitCells first).take i) ((splitCells first).drop (i + 1)) 0 [] R hbr hpre hpost
      rw [hlenpre] at hf
      refine ⟨line, hline, ?_, ?_⟩
      · rw [heq]
        simpa using hf
      · rw [heq]
        apply getField_some_mem_keys
        simpa using hf

/-- Witness for C8 at a concrete input: a CSV whose single data row has the
non-numeric value `xx` in the `jumlah_terjual` column. -/
theorem claim_C8_witness :
    ((∃ r c, (parseCSV "tanggal,nama_produk,jumlah_terjual,harga_beli,harga_jual,total_penjualan,total_biaya,laba,stok_sisa\n2024-01-01,A,xx,0,0,0,0,0,0").error
        = some (.badCell r c)) ↔
      ∃ line ∈ ["2024-01-01,A,xx,0,0,0,0,0,0"], rowBad (splitCells line)
        (splitCells "tanggal,nama_produk,jumlah_terjual,harga_beli,harga_jual,total_penjualan,total_biaya,laba,stok_sisa") 0 = true) ∧
    (∀ r c, (parseCSV "tanggal,nama_produk,jumlah_terjual,harga_beli,harga_jual,total_penjualan,total_biaya,laba,stok_sisa\n2024-01-01,A,xx,0,0,0,0,0,0").error
        = some (.badCell r c) →
      (parseCSV "tanggal,nama_produk,jumlah_terjual,harga_beli,harga_jual,total_penjualan,total_biaya,laba,stok_sisa\n2024-01-01,A,xx,0,0,0,0,0,0").data = []) ∧
    (∀ r c, (parseCSV "tanggal,nama_produk,jumlah_terjual,harga_beli,harga_jual,total_penjualan,total_biaya,laba,stok_sisa\n2024-01-01,A,xx,0,0,0,0,0,0").error
        = some (.badCell r c) →
      ∃ line, ["2024-01-01,A,xx,0,0,0,0,0,0"].get? (r - 2) = some line ∧
        rowBad (splitCells line)
          (splitCells "tanggal,nama_produk,jumlah_terjual,harga_beli,harga_jual,total_penjualan,total_biaya,laba,stok_sisa") 0 = true ∧
        numericCols.contains c = true) :=
  claim_C8
    "tanggal,nama_produk,jumlah_terjual,harga_beli,harga_jual,total_penjualan,total_biaya,laba,stok_sisa\n2024-01-01,A,xx,0,0,0,0,0,0"
    "tanggal,nama_produk,jumlah_terjual,harga_beli,harga_jual,total_penjualan,total_biaya,laba,stok_sisa"
    ["2024-01-01,A,xx,0,0,0,0,0,0"] (by decide) (by decide) (by decide)

/-- Witness for C10 at a concrete input: an extra trailing column `catatan`
whose cell value `note1` must land in the parsed record. -/
theorem claim_C10_witness :
    (∀ r c', (parseCSV "tanggal,nama_produk,jumlah_terjual,harga_beli,harga_jual,total_penjualan,total_biaya,laba,stok_sisa,catatan\n2024-01-01,A,2,0,0,0,0,0,0,note1").error
        = some (.badCell r c') → c' ≠ "catatan") ∧
    ((parseCSV "tanggal,nama_produk,jumlah_terjual,harga_beli,harga_jual,total_penjualan,total_biaya,laba,stok_sisa,catatan\n2024-01-01,A,2,0,0,0,0,0,0,note1").error = none →
      (parseCSV "tanggal,nama_produk,jumlah_terjual,harga_beli,harga_jual,total_penjualan,total_biaya,laba,stok_sisa,catatan\n2024-01-01,A,2,0,0,0,0,0,0,note1").data.length
        = ["2024-01-01,A,2,0,0,0,0,0,0,note1"].length ∧
      ∀ j e, (parseCSV "tanggal,nama_produk,jumlah_terjual,harga_beli,harga_jual,total_penjualan,total_biaya,laba,stok_sisa,catatan\n2024-01-01,A,2,0,0,0,0,0,0,note1").data.get? j
          = some e →
        ∃ line, ["2024-01-01,A,2,0,0,0,0,0,0,note1"].get? j = some line ∧
          getField e.fields "catatan"
            = some (((splitCells line).get? 9).elim CellVal.undef CellVal.str) ∧
          "catatan" ∈ exportKeys e) :=
  claim_C10
    "tanggal,nama_produk,jumlah_terjual,harga_beli,harga_jual,total_penjualan,total_biaya,laba,stok_sisa,catatan\n2024-01-01,A,2,0,0,0,0,0,0,note1"
    "tanggal,nama_produk,jumlah_terjual,harga_beli,harga_jual,total_penjualan,total_biaya,laba,stok_sisa,catatan"
    ["2024-01-01,A,2,0,0,0,0,0,0,note1"] 9 "catatan"
    (by decide) (by decide) (by decide) (by decide) (by decide) (by decide)

/-! ### Noninterference machinery for the `stok_sisa` column -/

theorem cellsAgree_spec {header c1 c2 : List String}
    (h : cellsAgreeOutsideStok header c1 c2 = true) :
    ∀ j, header.get? j ≠ some "stok_sisa" → c1.get? j = c2.get? j := by
  intro j hj
  by_cases hlt : j < max c1.length c2.length
  · have hall := List.all_eq_true.1 h j (List.mem_range.2 hlt)
    rcases Bool.or_eq_true .. ▸ hall with h1 | h1
    · exact absurd (by simpa using h1) hj
    · simpa using h1
  · rw [List.get?_eq_none.2 (by omega), List.get?_eq_none.2 (by omega)]

theorem erase_eq_fields {a b : SalesData} (h : eraseStok a = eraseStok b) :
    a.id = b.id ∧ a.tanggal = b.tanggal ∧ a.nama_produk = b.nama_produk ∧
    a.jumlah_terjual = b.jumlah_terjual ∧
    ∀ v : Int, ({ a with stok_sisa := v } : SalesData) = { b with stok_sisa := v } := by
  cases a
  cases b
  simp only [eraseStok, SalesData.mk.injEq] at h
  obtain ⟨h1, h2, h3, h4, h5, h6, h7, h8, h9, -⟩ := h
  exact ⟨h1, h2, h3, h4, fun v => by simp [h1, h2, h3, h4, h5, h6, h7, h8, h9]⟩

theorem entryToSales_rel {e1 e2 : CsvEntry} (hid : e1.id = e2.id)
    (hrel : ∀ k, k ≠ "stok_sisa" → getField e1.fields k = getField e2.fields k) :
    eraseStok (entryToSales e1) = eraseStok (entryToSales e2) := by
  have h1 := hrel "tanggal" (by decide)
  have h2 := hrel "nama_produk" (by decide)
  have h3 := hrel "jumlah_terjual" (by decide)
  have h4 := hrel "harga_beli" (by decide)
  have h5 := hrel "harga_jual" (by decide)
  have h6 := hrel "total_penjualan" (by decide)
  have h7 := hrel "total_biaya" (by decide)
  have h8 := hrel "laba" (by decide)
  simp [entryToSales, eraseStok, fieldStr, fieldNum, hid, h1, h2, h3, h4, h5, h6, h7, h8]

theorem sales_rel_of_entries {d1 d2 : List CsvEntry}
    (h : List.Forall₂ (fun a b : CsvEntry => a.id = b.id ∧
      ∀ k, k ≠ "stok_sisa" → getField a.fields k = getField b.fields k) d1 d2) :
    List.Forall₂ (fun a b : SalesData => eraseStok a = eraseStok b)
      (d1.map entryToSales) (d2.map entryToSales) := by
  induction h with
  | nil => exact .nil
  | cons hab hrest ih => exact .cons (entryToSales_rel hab.1 hab.2) ih

theorem orderedInsert_rel {a b : SalesData} (hab : eraseStok a = eraseStok b) :
    ∀ {s t : List SalesData},
      List.Forall₂ (fun x y => eraseStok x = eraseStok y) s t →
      List.Forall₂ (fun x y => eraseStok x = eraseStok y)
        (List.orderedInsert dateLE a s) (List.orderedInsert dateLE b t) := by
  intro s t hst
  have hdab : dateValue a.tanggal = dateValue b.tanggal := by
    rw [(erase_eq_fields hab).2.1]
  induction hst with
  | nil => exact .cons hab .nil
  | cons hxy hrest ih =>
    rename_i x y s' t' 
    have hdxy : dateValue x.tanggal = dateValue y.tanggal := by
      rw [(erase_eq_fields hxy).2.1]
    rw [List.orderedInsert, List.orderedInsert]
    by_cases hle : dateLE a x
    · rw [if_pos hle, if_pos (show dateLE b y from by
        show dateValue b.tanggal ≤ dateValue y.tanggal
        rw [← hdab, ← hdxy]
        exact hle)]
      exact .cons hab (.cons hxy hrest)
    · rw [if_neg hle, if_neg (show ¬ dateLE b y from fun hby => hle (by
        show dateValue a.tanggal ≤ dateValue x.tanggal
        rw [hdab, hdxy]
        exact hby))]
      exact .cons hxy ih

theorem sort_rel :
    ∀ {l1 l2 : List SalesData},
      List.Forall₂ (fun x y => eraseStok x = eraseStok y) l1 l2 →
      List.Forall₂ (fun x y => eraseStok x = eraseStok y) (sortByDate l1) (sortByDate l2) := by
  intro l1 l2 h
  induction h with
  | nil => exact .nil
  | cons hab hrest ih => exact orderedInsert_rel hab ih

theorem replay_rel :
    ∀ {l1 l2 : List SalesData},
      List.Forall₂ (fun x y => eraseStok x = eraseStok y) l1 l2 →
      (∀ t ∈ l1, t.jumlah_terjual ≠ 0) →
      ∀ stocks, replayGo stocks l1 = replayGo stocks l2 := by
  intro l1 l2 h
  induction h with
  | nil => intro _ _; rfl
  | cons hab hrest ih =>
    rename_i a b s t
    intro hq stocks
    obtain ⟨hid, hdate, hnama, hqty, hset⟩ := erase_eq_fields hab
    have hqa : a.jumlah_terjual ≠ 0 := hq a (List.mem_cons_self _ _)
    have hstep : ∀ acc, stepStock acc b = stepStock acc a := by
      intro acc
      simp only [stepStock, ← hqty, if_neg hqa]
    have hsB : stepStock (lookup0 stocks b.nama_produk) b
        = stepStock (lookup0 stocks a.nama_produk) a := by
      rw [← hnama]
      exact hstep _
    rw [replayGo_cons_eq, replayGo_cons_eq]
    by_cases hneg : stepStock (lookup0 stocks a.nama_produk) a < 0
    · rw [if_pos ⟨hqa, hneg⟩,
        if_pos ⟨(by rw [← hqty]; exact hqa), (by rw [hsB]; exact hneg)⟩]
      rw [hnama, hdate, hqty]
    · rw [if_neg (fun hc => hneg hc.2),
        if_neg (fun hc => hneg (by rw [← hsB]; exact hc.2))]
      have hrec : replayGo (setStock stocks b.nama_produk
            (stepStock (lookup0 stocks b.nama_produk) b)) t
          = replayGo (setStock stocks a.nama_produk
            (stepStock (lookup0 stocks a.nama_produk) a)) s := by
        rw [← hnama, hstep]
        exact (ih (fun u hu => hq u (List.mem_cons_of_mem _ hu)) _).symm
      rw [hrec]
      cases hr : replayGo (setStock stocks a.nama_produk
          (stepStock (lookup0 stocks a.nama_produk) a)) s with
      | error e => rfl
      | ok rest =>
        show Except.ok ({ a with stok_sisa := stepStock (lookup0 stocks a.nama_produk) a } :: rest)
          = Except.ok ({ b with stok_sisa := stepStock (lookup0 stocks b.nama_produk) b } :: rest)
        rw [hsB, hset]

theorem buildRow_agree (rowIdx : Nat) :
    ∀ (hs : List String) (i : Nat) (v1 v2 : List String) (e1 e2 R1 R2 : Row),
      buildRow v1 rowIdx hs i e1 = .ok R1 → buildRow v2 rowIdx hs i e2 = .ok R2 →
      (∀ j h', hs.get? j = some h' → h' ≠ "stok_sisa" → v1.get? (i + j) = v2.get? (i + j)) →
      (∀ k, k ≠ "stok_sisa" → getField e1 k = getField e2 k) →
      ∀ k, k ≠ "stok_sisa" → getField R1 k = getField R2 k := by
  intro hs
  induction hs with
  | nil =>
    intro i v1 v2 e1 e2 R1 R2 h1 h2 _ hrel k hk
    cases h1
    cases h2
    exact hrel k hk
  | cons h0 hs ih =>
    intro i v1 v2 e1 e2 R1 R2 h1 h2 hcells hrel k hk
    have hcells' : ∀ j h', hs.get? j = some h' → h' ≠ "stok_sisa" →
        v1.get? (i + 1 + j) = v2.get? (i + 1 + j) := by
      intro j h' hj hne
      have := hcells (j + 1) h' (by simpa using hj) hne
      rw [show i + (j + 1) = i + 1 + j from by omega] at this
      exact this
    rw [buildRow] at h1 h2
    by_cases hstok : h0 = "stok_sisa"
    · have hne0 : ∀ k', k' ≠ "stok_sisa" → k' ≠ h0 := fun k' hk' hh => hk' (hh.trans hstok)
      have hnum : numericCols.contains h0 = true := by rw [hstok]; decide
      rw [if_pos hnum] at h1 h2
      cases hp1 : (v1.get? i).bind parseNumJS with
      | none => rw [hp1] at h1; cases h1
      | some n1 =>
        rw [hp1] at h1
        cases hp2 : (v2.get? i).bind parseNumJS with
        | none => rw [hp2] at h2; cases h2
        | some n2 =>
          rw [hp2] at h2
          refine ih (i + 1) v1 v2 _ _ R1 R2 h1 h2 hcells' ?_ k hk
          intro k' hk'
          rw [getField_setField_ne _ _ _ _ (hne0 k' hk'),
            getField_setField_ne _ _ _ _ (hne0 k' hk')]
          exact hrel k' hk'
    · have hcv : v1.get? i = v2.get? i := by
        have := hcells 0 h0 (by simp) hstok
        simpa using this
      by_cases hn0 : numericCols.contains h0
      · rw [if_pos hn0] at h1 h2
        cases hp1 : (v1.get? i).bind parseNumJS with
        | none => rw [hp1] at h1; cases h1
        | some n1 =>
          rw [hp1] at h1
          rw [← hcv, hp1] at h2
          refine ih (i + 1) v1 v2 _ _ R1 R2 h1 h2 hcells' ?_ k hk
          intro k' hk'
          by_cases hkh : k' = h0
          · subst hkh
            rw [getField_setField_self, getField_setField_self]
          · rw [getField_setField_ne _ _ _ _ hkh, getField_setField_ne _ _ _ _ hkh]
            exact hrel k' hk'
      · rw [if_neg hn0] at h1 h2
        rw [← hcv] at h2
        refine ih (i + 1) v1 v2 _ _ R1 R2 h1 h2 hcells' ?_ k hk
        intro k' hk'
        by_cases hkh : k' = h0
        · subst hkh
          rw [getField_setField_self, getField_setField_self]
        · rw [getField_setField_ne _ _ _ _ hkh, getField_setField_ne _ _ _ _ hkh]
          exact hrel k' hk'

theorem parseRows_agree (header : List String) :
    ∀ (rows1 rows2 : List String) (idx : Nat) (d1 d2 : List CsvEntry),
      parseRows header rows1 idx = .ok d1 → parseRows header rows2 idx = .ok d2 →
      rows1.length = rows2.length →
      (∀ pr ∈ rows1.zip rows2,
        cellsAgreeOutsideStok header (splitCells pr.1) (splitCells pr.2) = true) →
      List.Forall₂ (fun a b : CsvEntry => a.id = b.id ∧
        ∀ k, k ≠ "stok_sisa" → getField a.fields k = getField b.fields k) d1 d2 := by
  intro rows1
  induction rows1 with
  | nil =>
    intro rows2 idx d1 d2 h1 h2 hlen _
    cases rows2 with
    | nil =>
      cases h1
      cases h2
      exact .nil
    | cons l2 r2 => simp at hlen
  | cons l1 r1 ih =>
    intro rows2 idx d1 d2 h1 h2 hlen hcells
    cases rows2 with
    | nil => simp at hlen
    | cons l2 r2 =>
      rw [parseRows] at h1 h2
      cases hb1 : buildRow (splitCells l1) idx header 0 [] with
      | error e => rw [hb1] at h1; cases h1
      | ok R1 =>
        rw [hb1] at h1
        cases hb2 : buildRow (splitCells l2) idx header 0 [] with
        | error e => rw [hb2] at h2; cases h2
        | ok R2 =>
          rw [hb2] at h2
          cases hr1 : parseRows header r1 (idx + 1) with
          | error e => rw [hr1] at h1; cases h1
          | ok d1' =>
            rw [hr1] at h1
            cases hr2 : parseRows header r2 (idx + 1) with
            | error e => rw [hr2] at h2; cases h2
            | ok d2' =>
              rw [hr2] at h2
              cases h1
              cases h2
              have hcell0 := hcells (l1, l2) (by simp)
              have hptw : ∀ j h', header.get? j = some h' → h' ≠ "stok_sisa" →
                  (splitCells l1).get? (0 + j) = (splitCells l2).get? (0 + j) := by
                intro j h' hj hne
                have := cellsAgree_spec hcell0 j (by
                  rw [hj]
                  exact fun hc => hne (Option.some.inj hc))
                simpa using this
              have hrel := buildRow_agree idx header 0 _ _ [] [] R1 R2 hb1 hb2 hptw
                (fun k _ => rfl)
              exact List.Forall₂.cons ⟨rfl, hrel⟩
                (ih r2 (idx + 1) d1' d2' hr1 hr2 (by simpa using hlen)
                  (fun pr hpr => hcells pr (List.mem_cons_of_mem _ hpr)))

theorem parseCSV_congr {t1 t2 : String} (h : splitLines t1 = splitLines t2) :
    parseCSV t1 = parseCSV t2 := by
  unfold parseCSV
  rw [h]

/-- C5, counterexample to the claim as stated: two CSV texts identical except
for the `stok_sisa` cell of a stock-adjustment row (`jumlah_terjual = 0`)
replay to different ledgers — the parsed `stok_sisa` is authoritative for
adjustment rows, contradicting "parsed but discarded". -/
theorem claim_C5_cex :
    csvAgreeExceptStok
        "tanggal,nama_produk,jumlah_terjual,harga_beli,harga_jual,total_penjualan,total_biaya,laba,stok_sisa\n2024-01-01,A,0,0,0,0,0,0,5"
        "tanggal,nama_produk,jumlah_terjual,harga_beli,harga_jual,total_penjualan,total_biaya,laba,stok_sisa\n2024-01-01,A,0,0,0,0,0,0,7"
      = true ∧
    processAndValidateData
        ((parseCSV "tanggal,nama_produk,jumlah_terjual,harga_beli,harga_jual,total_penjualan,total_biaya,laba,stok_sisa\n2024-01-01,A,0,0,0,0,0,0,5").data.map entryToSales)
        []
      ≠ processAndValidateData
        ((parseCSV "tanggal,nama_produk,jumlah_terjual,harga_beli,harga_jual,total_penjualan,total_biaya,laba,stok_sisa\n2024-01-01,A,0,0,0,0,0,0,7").data.map entryToSales)
        [] := by
  decide

/-- C5 (amended): for two CSV texts identical except for the values in the
`stok_sisa` column, if both parse successfully and no data row is a stock
adjustment (every parsed row's `jumlah_terjual` is nonzero), then parsing
each and replaying the parsed records with the same opening-stock map yields
identical results; for adjustment rows the `stok_sisa` column is
authoritative input, not discarded. -/
theorem claim_C5 (t1 t2 : String) (S : StockMap)
    (hagree : csvAgreeExceptStok t1 t2 = true)
    (h1 : (parseCSV t1).error = none) (h2 : (parseCSV t2).error = none)
    (hsales : ∀ e ∈ (parseCSV t1).data, fieldNum e.fields "jumlah_terjual" ≠ 0) :
    processAndValidateData ((parseCSV t1).data.map entryToSales) S
      = processAndValidateData ((parseCSV t2).data.map entryToSales) S := by
  cases hs1 : splitLines t1 with
  | nil =>
    cases hs2 : splitLines t2 with
    | nil => rw [parseCSV_congr (hs1.trans hs2.symm)]
    | cons f2 r2 => simp [csvAgreeExceptStok, hs1, hs2] at hagree
  | cons f1 r1 =>
    cases hs2 : splitLines t2 with
    | nil => simp [csvAgreeExceptStok, hs1, hs2] at hagree
    | cons f2 r2 =>
      simp only [csvAgreeExceptStok, hs1, hs2, Bool.and_eq_true] at hagree
      obtain ⟨⟨hhd, hlen⟩, hrows⟩ := hagree
      have hhd' : splitCells f1 = splitCells f2 := by simpa using hhd
      have hlen' : r1.length = r2.length := by simpa using hlen
      have hrows' : ∀ pr ∈ r1.zip r2,
          cellsAgreeOutsideStok (splitCells f1) (splitCells pr.1) (splitCells pr.2) = true :=
        fun pr hpr => List.all_eq_true.1 hrows pr hpr
      cases r1 with
      | nil =>
        have hone : parseCSV t1 = ⟨[], some .empty⟩ := by simp [parseCSV, hs1]
        rw [hone] at h1
        cases h1
      | cons l1 r1' =>
        cases r2 with
        | nil => simp at hlen'
        | cons l2 r2' =>
          cases hmiss : requiredHeaders.filter (fun rh => !(splitCells f1).contains rh) with
          | cons m ms =>
            have hbad : parseCSV t1 = ⟨[], some (.missingHeaders (m :: ms))⟩ := by
              simp only [parseCSV, hs1]
              rw [hmiss]
              simp
            rw [hbad] at h1
            cases h1
          | nil =>
            cases hp1 : parseRows (splitCells f1) (l1 :: r1') 0 with
            | error e =>
              rw [parseCSV_err_parseRows hs1 hmiss hp1] at h1
              cases h1
            | ok d1 =>
              have hmiss2 : requiredHeaders.filter
                  (fun rh => !(splitCells f2).contains rh) = [] := by
                rw [← hhd']
                exact hmiss
              cases hp2 : parseRows (splitCells f2) (l2 :: r2') 0 with
              | error e =>
                rw [parseCSV_err_parseRows hs2 hmiss2 hp2] at h2
                cases h2
              | ok d2 =>
                rw [parseCSV_ok_parseRows hs1 hmiss hp1] at hsales ⊢
                rw [parseCSV_ok_parseRows hs2 hmiss2 hp2]
                dsimp only at hsales ⊢
                have hp2' : parseRows (splitCells f1) (l2 :: r2') 0 = .ok d2 := by
                  rw [hhd']
                  exact hp2
                have hF := parseRows_agree (splitCells f1) (l1 :: r1') (l2 :: r2') 0 d1 d2
                  hp1 hp2' hlen' hrows'
                have hEs := sort_rel (sales_rel_of_entries hF)
                have hqs : ∀ u ∈ sortByDate (d1.map entryToSales), u.jumlah_terjual ≠ 0 := by
                  intro u hu
                  have hu' : u ∈ d1.map entryToSales := ((sortByDate_perm _).mem_iff).1 hu
                  obtain ⟨e, he, heq⟩ := List.mem_map.1 hu'
                  rw [← heq]
                  exact hsales e he
                have hrepl := replay_rel hEs hqs S
                unfold processAndValidateData
                rw [hrepl]

/-- Witness for C5 at a concrete input: two CSVs whose single sale row
differs only in the (ignored) `stok_sisa` cell replay identically. -/
theorem claim_C5_witness :
    processAndValidateData
        ((parseCSV "tanggal,nama_produk,jumlah_terjual,harga_beli,harga_jual,total_penjualan,total_biaya,laba,stok_sisa\n2024-01-01,A,2,0,0,0,0,0,9").data.map entryToSales)
        [("A", 5)]
      = processAndValidateData
        ((parseCSV "tanggal,nama_produk,jumlah_terjual,harga_beli,harga_jual,total_penjualan,total_biaya,laba,stok_sisa\n2024-01-01,A,2,0,0,0,0,0,1").data.map entryToSales)
        [("A", 5)] :=
  claim_C5
    "tanggal,nama_produk,jumlah_terjual,harga_beli,harga_jual,total_penjualan,total_biaya,laba,stok_sisa\n2024-01-01,A,2,0,0,0,0,0,9"
    "tanggal,nama_produk,jumlah_terjual,harga_beli,harga_jual,total_penjualan,total_biaya,laba,stok_sisa\n2024-01-01,A,2,0,0,0,0,0,1"
    [("A", 5)] (by decide) (by decide) (by decide) (by decide)
